import Mathlib

/-!
Verification development for the multi-source retrieval-and-rerank backend.

The Python modules under `app/backend/approaches/` are shallowly embedded:
Python floats are modelled as exact rationals (`ℚ`), Python dicts with a
known key set as structures with `Option`-valued fields (`none` = key
absent), raised exceptions as `Except Unit`, and Python's stable
`list.sort` as a stable insertion sort.  External effects (the embedding
model, the HTTP layer, hashing) are parameters of the definitions.
-/

namespace AvaSpec

/-! ## Stable sorting, modelling Python `list.sort`

Python's `list.sort(key=k, reverse=True)` is a stable sort: elements with
equal keys keep their original relative order.  `sortDescBy` inserts each
element before the first strictly-smaller key, which reproduces exactly
that behaviour; `sortAscBy` is the ascending (`reverse=False`) variant. -/

def insertDescBy {α κ : Type} [LinearOrder κ] (key : α → κ) (x : α) : List α → List α
  | [] => [x]
  | y :: ys => if key y ≤ key x then x :: y :: ys else y :: insertDescBy key x ys

def sortDescBy {α κ : Type} [LinearOrder κ] (key : α → κ) : List α → List α
  | [] => []
  | x :: xs => insertDescBy key x (sortDescBy key xs)

def insertAscBy {α κ : Type} [LinearOrder κ] (key : α → κ) (x : α) : List α → List α
  | [] => [x]
  | y :: ys => if key x ≤ key y then x :: y :: ys else y :: insertAscBy key x ys

def sortAscBy {α κ : Type} [LinearOrder κ] (key : α → κ) : List α → List α
  | [] => []
  | x :: xs => insertAscBy key x (sortAscBy key xs)

/-! ## Dual-Source Combiner (`dual_search_helper.py`, class `DualSearchHelper`)

A search-result dict is embedded as a structure whose fields are the keys
the combiner reads or writes; `none` stands for an absent key.  Keys such
as `"@search.score"` are rendered `at_score`. -/

namespace DualSearch

inductive Source : Type
  | confluence
  | azure
deriving DecidableEq, Repr

structure Res : Type where
  rid : String
  vector_score : Option ℚ
  faiss_score : Option ℚ
  lexical_score : Option ℚ
  at_reranker_score : Option ℚ
  reranker_score : Option ℚ
  at_score : Option ℚ
  score : Option ℚ
  at_text_score : Option ℚ
  rank : Option Int
  at_rank : Option Int
  source_type : Option Source
  original_rank : Option Int
  normalized_vector_score : Option ℚ
  normalized_lexical_score : Option ℚ
  combined_score : Option ℚ
  final_weighted_score : Option ℚ
  final_rank : Option Int
  fallback_mode : Option Bool
deriving DecidableEq, Repr

/-- A result dict holding only an identifier; every other key is absent. -/
def Res.base (rid : String) : Res :=
  ⟨rid, none, none, none, none, none, none, none, none, none,
   none, none, none, none, none, none, none, none, none⟩

/-- Lines 53-68: processing of one Confluence result.  Python evaluates the
default argument of `result.get("lexical_score", 1.0 / (result.get("rank", 1) + 1))`
eagerly, so `rank = -1` raises `ZeroDivisionError` even when a lexical
score is present; the raised exception is the `.error` case. -/
def procConfluence (r : Res) : Except Unit Res :=
  let v : ℚ := r.vector_score.getD (r.faiss_score.getD 0)
  let rk : Int := r.rank.getD 1
  if (rk : ℚ) + 1 = 0 then .error ()
  else
    let ldef : ℚ := 1 / ((rk : ℚ) + 1)
    let l : ℚ := r.lexical_score.getD ldef
    .ok { r with
      source_type := some Source.confluence
      vector_score := some v
      lexical_score := some l
      original_rank := some (r.rank.getD 0) }

/-- Lines 209-233, `_extract_azure_vector_score`: priority order
`vector_score`, reranker score (divided by 4), search score (divided by
10 and capped at 1), then the rank-based fallback `1/(rank+1)` which
raises on `rank = -1`. -/
def extract_azure_vector_score (r : Res) : Except Unit ℚ :=
  match r.vector_score with
  | some v => .ok v
  | none =>
    match r.at_reranker_score.orElse (fun _ => r.reranker_score) with
    | some rr => .ok (rr / 4)
    | none =>
      match r.at_score.orElse (fun _ => r.score) with
      | some s => .ok (min (s / 10) 1)
      | none =>
        let rk : Int := r.at_rank.getD (r.rank.getD 1)
        if (rk : ℚ) + 1 = 0 then .error () else .ok (1 / ((rk : ℚ) + 1))

/-- Lines 235-254, `_extract_azure_lexical_score`: priority order
`lexical_score`, text score, 40 percent of the search score (divided by
10 and capped at 1), then the rank fallback. -/
def extract_azure_lexical_score (r : Res) : Except Unit ℚ :=
  match r.lexical_score with
  | some l => .ok l
  | none =>
    match r.at_text_score with
    | some t => .ok t
    | none =>
      match r.at_score.orElse (fun _ => r.score) with
      | some s => .ok (min (s * 0.4 / 10) 1)
      | none =>
        let rk : Int := r.at_rank.getD (r.rank.getD 1)
        if (rk : ℚ) + 1 = 0 then .error () else .ok (1 / ((rk : ℚ) + 1))

/-- Lines 76-91: processing of one Azure result.  Note the key order of
`original_rank` (`rank` before `@search.rank`) differs from the rank
fallback inside the extractors (`@search.rank` before `rank`), exactly as
in the source. -/
def procAzure (r : Res) : Except Unit Res :=
  (extract_azure_vector_score r).bind fun v =>
    (extract_azure_lexical_score r).bind fun l =>
      .ok { r with
        source_type := some Source.azure
        vector_score := some v
        lexical_score := some l
        original_rank := some (r.rank.getD (r.at_rank.getD 0)) }

/-- Maximum of a list as Python's `max` (callers only use it on non-empty
lists; the `[]` value is irrelevant). -/
def listMax : List ℚ → ℚ
  | [] => 0
  | x :: xs => xs.foldl max x

def listMin : List ℚ → ℚ
  | [] => 0
  | x :: xs => xs.foldl min x

/-- Lines 281-282 of `_normalize_scores`: the vector scores of the whole
pool (every processed result has the key set, the `isSome` filter mirrors
the `is not None` check). -/
def pool_vector_scores (rs : List Res) : List ℚ :=
  (rs.filter (fun r => r.vector_score.isSome)).map (fun r => r.vector_score.getD 0)

def pool_lexical_scores (rs : List Res) : List ℚ :=
  (rs.filter (fun r => r.lexical_score.isSome)).map (fun r => r.lexical_score.getD 0)

/-- Lines 285-290: `max_vector`, `min_vector` and `vector_range` of the
pooled scores (range forced to 1 when the scores are all equal or
absent). -/
def max_vector (rs : List Res) : ℚ :=
  if (pool_vector_scores rs).isEmpty then 1 else listMax (pool_vector_scores rs)

def min_vector (rs : List Res) : ℚ :=
  if (pool_vector_scores rs).isEmpty then 1 else listMin (pool_vector_scores rs)

def vector_range (rs : List Res) : ℚ :=
  if (pool_vector_scores rs).isEmpty then 1
  else if min_vector rs < max_vector rs then max_vector rs - min_vector rs else 1

/-- Lines 292-298: the lexical counterparts. -/
def max_lexical (rs : List Res) : ℚ :=
  if (pool_lexical_scores rs).isEmpty then 1 else listMax (pool_lexical_scores rs)

def min_lexical (rs : List Res) : ℚ :=
  if (pool_lexical_scores rs).isEmpty then 1 else listMin (pool_lexical_scores rs)

def lexical_range (rs : List Res) : ℚ :=
  if (pool_lexical_scores rs).isEmpty then 1
  else if min_lexical rs < max_lexical rs then max_lexical rs - min_lexical rs else 1

/-- Lines 300-313: the per-result normalisation step of
`_normalize_scores`. -/
def normalize_one (rs : List Res) (r : Res) : Res :=
  let v := r.vector_score.getD 0
  let l := r.lexical_score.getD 0
  let nv := if 0 < vector_range rs then (v - min_vector rs) / vector_range rs else v
  let nl := if 0 < lexical_range rs then (l - min_lexical rs) / lexical_range rs else l
  { r with normalized_vector_score := some nv, normalized_lexical_score := some nl }

/-- Lines 277-313, `_normalize_scores`: min-max normalisation of vector
and lexical scores across the whole pool. -/
def normalize_scores (rs : List Res) : List Res :=
  rs.map (normalize_one rs)

/-- Lines 117-135: combined score (30 percent lexical, 70 percent vector
of the normalised scores), then source weight and the 1.1 boost for
Confluence results. -/
def score_result (weight_confluence weight_azure : ℚ) (r : Res) : Res :=
  let nl := r.normalized_lexical_score.getD 0
  let nv := r.normalized_vector_score.getD 0
  let combined : ℚ := 0.3 * nl + 0.7 * nv
  let source_weight := if r.source_type = some Source.confluence then weight_confluence else weight_azure
  let source_boost : ℚ := if r.source_type = some Source.confluence then 1.1 else 1
  { r with
    combined_score := some combined
    final_weighted_score := some (combined * source_weight * source_boost) }

/-- Lines 141-142 and 201-202: `enumerate(results, 1)` assigning
sequential final ranks. -/
def assign_final_ranks : Int → List Res → List Res
  | _, [] => []
  | i, r :: rs => { r with final_rank := some i } :: assign_final_ranks (i + 1) rs

/-- Lines 186-189: Confluence results receive odd ranks 1, 3, 5, ... and
`fallback_mode = True`. -/
def rank_confluence_part : Nat → List Res → List Res
  | _, [] => []
  | i, r :: rs =>
    { r with final_rank := some (2 * (i : Int) + 1), fallback_mode := some true } ::
      rank_confluence_part (i + 1) rs

/-- Lines 192-195: Azure results receive even ranks 2, 4, 6, ... and
`fallback_mode = True`. -/
def rank_azure_part : Nat → List Res → List Res
  | _, [] => []
  | i, r :: rs =>
    { r with final_rank := some (2 * (i : Int) + 2), fallback_mode := some true } ::
      rank_azure_part (i + 1) rs

/-- Lines 49-68: the `for` loop processing the Confluence results in
order; an exception raised by any iteration aborts the whole `try`
block. -/
def process_confluence_results : List Res → Except Unit (List Res)
  | [] => .ok []
  | r :: rs =>
    (procConfluence r).bind fun p =>
      (process_confluence_results rs).bind fun ps => .ok (p :: ps)

/-- Lines 72-91: the `for` loop processing the Azure results in order. -/
def process_azure_results : List Res → Except Unit (List Res)
  | [] => .ok []
  | r :: rs =>
    (procAzure r).bind fun p =>
      (process_azure_results rs).bind fun ps => .ok (p :: ps)

/-- Alternating interleave starting with the left list (the shape the
spec prescribes for the equal-representation fallback). -/
def interleave : List Res → List Res → List Res
  | [], ys => ys
  | xs, [] => xs
  | x :: xs, y :: ys => x :: y :: interleave xs ys

/-- Lines 158-207, `_equal_representation_fallback`. -/
def equal_representation_fallback (confluence_results azure_results : List Res) (top : Nat) :
    List Res :=
  let confluence_count0 := min confluence_results.length ((top + 1) / 2)
  let azure_count0 := min azure_results.length (top - confluence_count0)
  let counts : Nat × Nat :=
    if confluence_count0 < (top + 1) / 2 ∧ azure_count0 < azure_results.length then
      (confluence_count0, min azure_results.length (top - confluence_count0))
    else if azure_count0 < top / 2 ∧ confluence_count0 < confluence_results.length then
      (min confluence_results.length (top - azure_count0), azure_count0)
    else
      (confluence_count0, azure_count0)
  let confPart := rank_confluence_part 0 (confluence_results.take counts.1)
  let azurePart := rank_azure_part 0 (azure_results.take counts.2)
  let final_results := sortAscBy (fun r => r.final_rank.getD 0) (confPart ++ azurePart)
  (assign_final_ranks 1 final_results).take top

/-- Lines 43-146: the body of the `try` block of
`combine_and_rerank_dual_results`. -/
def combine_try_body (confluence_results azure_results : List Res) (top : Nat)
    (weight_confluence weight_azure : ℚ) : Except Unit (List Res) :=
  if confluence_results.isEmpty ∧ azure_results.isEmpty then .ok []
  else
    (process_confluence_results confluence_results).bind fun processed_confluence =>
      let confluence_has_vectors := processed_confluence.any (fun r => 0 < r.vector_score.getD 0)
      (process_azure_results azure_results).bind fun processed_azure =>
        let azure_has_vectors := processed_azure.any (fun r => 0 < r.vector_score.getD 0)
        if ¬ confluence_has_vectors ∧ azure_has_vectors then
          .ok (equal_representation_fallback processed_confluence processed_azure top)
        else
          let all_results := processed_confluence ++ processed_azure
          if all_results.isEmpty then .ok []
          else
            let normalized := normalize_scores all_results
            let scored := normalized.map (score_result weight_confluence weight_azure)
            let sorted := sortDescBy (fun r => r.final_weighted_score.getD 0) scored
            .ok ((assign_final_ranks 1 sorted).take top)

/-- Lines 27-156, `combine_and_rerank_dual_results`.  The `except`
handler (lines 148-156) feeds truncated raw inputs and `top*2` to the
fallback. -/
def combine_and_rerank_dual_results (confluence_results azure_results : List Res) (top : Nat)
    (weight_confluence weight_azure : ℚ) : List Res :=
  match combine_try_body confluence_results azure_results top weight_confluence weight_azure with
  | .ok rs => rs
  | .error _ =>
      equal_representation_fallback (confluence_results.take (top / 2 + 1))
        (azure_results.take (top / 2 + 1)) (top * 2)

end DualSearch

/-! ## Embedding Cache & Vector Index (`faiss_manager.py`, class `FAISSManager`)

The mutable manager state is `FState`.  Python dicts (`document_metadata`,
`embedding_cache`, `cache_timestamps`) are insertion-ordered association
lists; `faiss_index` is the list of stored vectors (`ntotal` is its
length), `none` when the library failed to load.  The MD5 content hash,
the L2 normalisation and the inner product are abstract parameters
(`md5`, `normL2`, `inner`); the embedding model is an oracle mapping the
attempt number to the returned vector (`none` = the call raised).
Concurrent batches are linearised to sequential processing. -/

namespace Faiss

abbrev Vec := List ℚ

/-- First-seen lookup in an insertion-ordered dict. -/
def lookupA {β : Type} : List (String × β) → String → Option β
  | [], _ => none
  | (k, v) :: rest, key => if k = key then some v else lookupA rest key

/-- Python `d[key] = v`: overwrite in place when the key exists, else
append, preserving dict insertion order. -/
def insertA {β : Type} : List (String × β) → String → β → List (String × β)
  | [], key, v => [(key, v)]
  | (k, w) :: rest, key, v =>
    if k = key then (k, v) :: rest else (k, w) :: insertA rest key v

/-- Python `del d[key]`. -/
def eraseA {β : Type} (m : List (String × β)) (key : String) : List (String × β) :=
  m.filter (fun kv => kv.1 != key)

/-- Metadata record built at lines 228-232 and 393-397 (`content_hash`
is only set by the duplicate-detection path). -/
structure Meta : Type where
  mid : String
  added_at : ℚ
  content_hash : Option String
deriving DecidableEq, Repr

structure PendingItem : Type where
  embedding : Vec
  doc_id : String
  metadata : Meta
deriving DecidableEq, Repr

structure FState : Type where
  faiss_index : Option (List Vec)
  document_metadata : List (String × Meta)
  embedding_cache : List (String × Vec)
  cache_timestamps : List (String × ℚ)
  pending_additions : List PendingItem
deriving DecidableEq, Repr

/-- Constants of `FAISSConfig`. -/
def EMBEDDING_CACHE_EXPIRY_HOURS : ℚ := 24

def MAX_CACHE_SIZE : Nat := 10000

def EMBEDDING_RETRY_ATTEMPTS : Nat := 2

def EMBEDDING_RETRY_DELAY : ℚ := 0.5

def EMBEDDING_BATCH_SIZE : Nat := 10

def INDEX_UPDATE_BATCH_SIZE : Nat := 50

/-- Lines 279-285: store the fresh embedding in the cache.  The
over-capacity cleanup is scheduled with `asyncio.create_task` and does
not run inline, so it is not part of this step. -/
def cache_store (st : FState) (text_hash : String) (emb : Vec) (now : ℚ) : FState :=
  { st with
    embedding_cache := insertA st.embedding_cache text_hash emb
    cache_timestamps := insertA st.cache_timestamps text_hash now }

/-- Outcome of one `get_embedding` call: returned value, state after the
call, number of embedding-model requests issued, and the sleeps performed
between retries. -/
structure EmbedOut : Type where
  result : Option Vec
  state : FState
  calls : Nat
  sleeps : List ℚ
deriving DecidableEq, Repr

/-- Lines 262-295: the retry loop `for attempt in range(EMBEDDING_RETRY_ATTEMPTS)`.
A successful call caches and returns; a raising call sleeps
`EMBEDDING_RETRY_DELAY * 2 ** attempt` and retries unless it was the last
attempt, in which case `None` is returned and nothing is cached. -/
def embed_attempts (text_hash : String) (now : ℚ) (oracle : Nat → Option Vec) (st : FState) :
    Nat → Nat → EmbedOut
  | _, 0 => ⟨none, st, 0, []⟩
  | attempt, remaining + 1 =>
    match oracle attempt with
    | some emb => ⟨some emb, cache_store st text_hash emb now, 1, []⟩
    | none =>
      if attempt < EMBEDDING_RETRY_ATTEMPTS - 1 then
        let rest := embed_attempts text_hash now oracle st (attempt + 1) remaining
        ⟨rest.result, rest.state, rest.calls + 1, EMBEDDING_RETRY_DELAY * 2 ^ attempt :: rest.sleeps⟩
      else ⟨none, st, 1, []⟩

/-- Lines 237-295, `get_embedding`.  `md5` stands for `_get_text_hash`
(lines 211-213); the text is truncated to its first 8000 characters both
for the hash and for the model input, so the oracle is per-text. -/
def get_embedding (md5 : String → String) (st : FState) (text : String) (hasClient : Bool)
    (now : ℚ) (oracle : Nat → Option Vec) : EmbedOut :=
  if text = "" ∨ hasClient = false then ⟨none, st, 0, []⟩
  else
    let text_hash := md5 (text.take 8000)
    match lookupA st.embedding_cache text_hash with
    | some cached =>
      let timestamp := (lookupA st.cache_timestamps text_hash).getD 0
      if now - timestamp < EMBEDDING_CACHE_EXPIRY_HOURS * 3600 then ⟨some cached, st, 0, []⟩
      else embed_attempts text_hash now oracle st 0 EMBEDDING_RETRY_ATTEMPTS
    | none => embed_attempts text_hash now oracle st 0 EMBEDDING_RETRY_ATTEMPTS

/-- Lines 215-235, `_is_document_in_index`: a metadata hit returns true;
otherwise a cached content hash also returns true, inserting a fresh
metadata entry for the new id as a side effect. -/
def is_document_in_index (md5 : String → String) (st : FState) (doc_id text : String)
    (now : ℚ) : Bool × FState :=
  if (lookupA st.document_metadata doc_id).isSome then (true, st)
  else
    let text_hash := md5 (text.take 8000)
    if (lookupA st.embedding_cache text_hash).isSome then
      (true,
        { st with
          document_metadata :=
            insertA st.document_metadata doc_id ⟨doc_id, now, some text_hash⟩ })
    else (false, st)

/-- A document passed to `add_documents`; `id` and `text` are the values
of `doc.get(id_field)` and `doc.get(text_field)`. -/
structure Doc : Type where
  id : Option String
  text : Option String
deriving DecidableEq, Repr

/-- Lines 320-330: the duplicate-filter loop of `add_documents`, keeping
documents with a truthy id and text that are not yet in the index;
threading the state because `_is_document_in_index` mutates metadata. -/
def filter_new (md5 : String → String) (now : ℚ) : FState → List Doc → List Doc × FState
  | st, [] => ([], st)
  | st, d :: ds =>
    match d.id, d.text with
    | some doc_id, some text =>
      if doc_id = "" ∨ text = "" then filter_new md5 now st ds
      else
        let p := is_document_in_index md5 st doc_id text now
        let rest := filter_new md5 now p.2 ds
        if p.1 then rest else (d :: rest.1, rest.2)
    | _, _ => filter_new md5 now st ds

/-- Lines 357-408, `_process_document_batch`, with the concurrent
`asyncio.gather` linearised to left-to-right processing: each document is
embedded and, on success, appended to the pending-additions buffer. -/
def process_documents (md5 : String → String) (hasClient : Bool) (now : ℚ)
    (oracle : String → Nat → Option Vec) : FState → List Doc → Nat × FState
  | st, [] => (0, st)
  | st, d :: ds =>
    let doc_id := d.id.getD ""
    let text := d.text.getD ""
    let eo := get_embedding md5 st text hasClient now (oracle text)
    let st1 :=
      match eo.result with
      | some emb =>
        { eo.state with pending_additions :=
            eo.state.pending_additions ++ [⟨emb, doc_id, ⟨doc_id, now, none⟩⟩] }
      | none => eo.state
    let rest := process_documents md5 hasClient now oracle st1 ds
    ((if eo.result.isSome then 1 else 0) + rest.1, rest.2)

/-- Lines 410-447, `_flush_pending_additions`: normalise the pending
embeddings, append them to the index in one bulk operation, merge their
metadata, clear the buffer.  When the index is `None` the `add` call
raises before the metadata update and the clear, and the exception is
swallowed, so the state is unchanged. -/
def flush_pending_additions (normL2 : Vec → Vec) (st : FState) : FState :=
  if st.pending_additions.isEmpty then st
  else
    match st.faiss_index with
    | none => st
    | some idx =>
      let embeddings_to_add := st.pending_additions.map (fun it => it.embedding)
      let metadata_to_add := st.pending_additions.foldl
        (fun acc it => insertA acc it.doc_id it.metadata) []
      if embeddings_to_add.isEmpty then { st with pending_additions := [] }
      else
        { st with
          faiss_index := some (idx ++ embeddings_to_add.map normL2)
          document_metadata := metadata_to_add.foldl
            (fun acc kv => insertA acc kv.1 kv.2) st.document_metadata
          pending_additions := [] }

/-- Lines 297-355, `add_documents`: filter duplicates, embed the
remainder (the 10-document batching only groups the concurrent embedding
calls and is invisible once linearised), queue embeddings as pending, and
flush only when at least `INDEX_UPDATE_BATCH_SIZE` additions are pending. -/
def add_documents (md5 : String → String) (normL2 : Vec → Vec) (st : FState)
    (documents : List Doc) (hasClient : Bool) (now : ℚ)
    (oracle : String → Nat → Option Vec) : Nat × FState :=
  match st.faiss_index with
  | none => (0, st)
  | some _ =>
    let fr := filter_new md5 now st documents
    if fr.1.isEmpty then (0, fr.2)
    else
      let pr := process_documents md5 hasClient now oracle fr.2 fr.1
      if 0 < pr.1 ∧ INDEX_UPDATE_BATCH_SIZE ≤ pr.2.pending_additions.length then
        (pr.1, flush_pending_additions normL2 pr.2)
      else (pr.1, pr.2)

/-- Python truthiness of an optional string (`not query_text`). -/
def optStrFalsy : Option String → Bool
  | none => true
  | some s => s.isEmpty

/-- Lines 449-508, `search`.  The `none`-index and empty-index early
returns happen before the pending flush; the `ValueError` for a missing
query is the `.error` outcome.  `inner` is the inner product of the
`IndexFlatIP` index; its exact top-k search is rendered as a stable
descending sort by similarity.  Result rows are rebuilt positionally from
the metadata key list, as in the source. -/
def search (md5 : String → String) (normL2 : Vec → Vec) (inner : Vec → Vec → ℚ)
    (st : FState) (query_embedding : Option Vec) (query_text : Option String)
    (hasClient : Bool) (hasModelName : Bool) (now : ℚ) (oracle : Nat → Option Vec)
    (top_k : Nat) (score_threshold : Option ℚ) :
    Except Unit (List (String × ℚ × Meta)) × FState :=
  match st.faiss_index with
  | none => (.ok [], st)
  | some idx0 =>
    if idx0.isEmpty then (.ok [], st)
    else
      let st1 := if st.pending_additions.isEmpty then st else flush_pending_additions normL2 st
      let qe : Except Unit (Option Vec × FState) :=
        match query_embedding with
        | some q => .ok (some q, st1)
        | none =>
          if optStrFalsy query_text ∨ hasClient = false ∨ hasModelName = false then .error ()
          else
            let eo := get_embedding md5 st1 (query_text.getD "") hasClient now oracle
            .ok (eo.result, eo.state)
      match qe with
      | .error _ => (.error (), st1)
      | .ok (none, st2) => (.ok [], st2)
      | .ok (some q, st2) =>
        match st2.faiss_index with
        | none => (.ok [], st2)
        | some idx =>
          let qn := normL2 q
          let k := min top_k idx.length
          let ranked := (sortDescBy (fun p : Nat × ℚ => p.2) (idx.map (fun row => inner qn row)).enum).take k
          let doc_ids := st2.document_metadata.map (fun kv => kv.1)
          let results := ranked.foldl (fun acc p =>
            if doc_ids.length ≤ p.1 then acc
            else
              let skip :=
                match score_threshold with
                | none => false
                | some t => decide (¬ t = 0 ∧ p.2 < t)
              if skip then acc
              else
                let doc_id := doc_ids.getD p.1 ""
                acc ++ [(doc_id, p.2, (lookupA st2.document_metadata doc_id).getD ⟨doc_id, 0, none⟩)]) []
          (.ok results, st2)

/-- Lines 574-579: the removal loop over `doc_ids`, deleting present ids
from the metadata map and counting the deletions. -/
def remove_loop : List (String × Meta) → List String → List (String × Meta) × Nat
  | md, [] => (md, 0)
  | md, doc_id :: rest =>
    if (lookupA md doc_id).isSome then
      let p := remove_loop (eraseA md doc_id) rest
      (p.1, p.2 + 1)
    else remove_loop md rest

/-- Lines 564-588, `remove_documents`: drop the given ids from the
metadata map and from the pending buffer; the stored index vectors are
not touched (FAISS does not support removal). -/
def remove_documents (st : FState) (doc_ids : List String) : Nat × FState :=
  if doc_ids.isEmpty then (0, st)
  else
    let p := remove_loop st.document_metadata doc_ids
    (p.2,
      { st with
        document_metadata := p.1
        pending_additions := st.pending_additions.filter
          (fun it => ¬ doc_ids.contains it.doc_id) })

end Faiss

/-! ## Source search adapter (`confluence_search.py`) -/

namespace Confluence

/-- Lines 522-537: the body of the `try` block of
`search_confluence_content`.  The oracle `net` is the network call:
`.error` when `aiohttp` raises; otherwise the HTTP status together with
the outcome of reading and parsing the body (`response.json()` followed
by `_parse_confluence_results`, either of which may raise). -/
def search_confluence_try_body {R : Type} (net : Except Unit (Nat × Except Unit (List R))) :
    Except Unit (List R) :=
  net.bind fun resp =>
    if resp.1 = 200 then resp.2.bind fun results => .ok results
    else .ok []

/-- Lines 487-541, `search_confluence_content`: the `except` handler
turns any exception raised inside the `try` block into an empty result
list, and nothing outside the `try` block can raise. -/
def search_confluence_content {R : Type} (net : Except Unit (Nat × Except Unit (List R))) :
    Except Unit (List R) :=
  match search_confluence_try_body net with
  | .ok rs => .ok rs
  | .error _ => .ok []

/-- Line 512: the requested page size sent to the Graph search API. -/
def confluence_request_size (top : Nat) : Nat := min top 25

end Confluence

/-! ## Retrieval Orchestrator (`chatreadretrieveread.py`) -/

namespace Orchestrate

inductive SearchApproach : Type
  | dualSearch
  | confluenceSearch
  | agenticRetrieval
  | standardSearch
  | directChat
deriving DecidableEq, Repr

/-- Lines 227-269 of `run_until_final_call`: the strategy decision.
`disable_rag`, `dual_search` and `use_confluence_search` come from the
active bot profile; `use_agentic_retrieval_override` is the truthiness of
`overrides.get("use_agentic_retrieval")`.  The chain tests dual search
first, then the Confluence connector, then the agentic override, then
the standard search. -/
def select_search_approach (disable_rag dual_search use_confluence_search : Bool)
    (use_agentic_retrieval_override : Bool) : SearchApproach :=
  if disable_rag then .directChat
  else if dual_search then .dualSearch
  else if use_confluence_search then .confluenceSearch
  else if use_agentic_retrieval_override then .agenticRetrieval
  else .standardSearch

end Orchestrate

/-! ## Association list lemmas -/

namespace Faiss

theorem lookupA_eraseA {β : Type} (m : List (String × β)) (k x : String) :
    lookupA (eraseA m k) x = if x = k then none else lookupA m x := by
  induction m with
  | nil => simp [eraseA, lookupA]
  | cons a rest ih =>
    obtain ⟨a1, a2⟩ := a
    by_cases ha : a1 = k
    · have hdrop : eraseA ((a1, a2) :: rest) k = eraseA rest k := by
        simp [eraseA, List.filter_cons, ha]
      rw [hdrop, ih]
      by_cases hx : x = k
      · simp [hx]
      · have hax : ¬ a1 = x := fun h => hx (h ▸ ha)
        simp [lookupA, hx, hax]
    · have hkeep : eraseA ((a1, a2) :: rest) k = (a1, a2) :: eraseA rest k := by
        simp [eraseA, List.filter_cons, bne_iff_ne, ha]
      rw [hkeep]
      by_cases hax : a1 = x
      · have hxk : ¬ x = k := fun h => ha (hax.trans h)
        simp [lookupA, hax, hxk]
      · simp [lookupA, hax, ih]

theorem insertA_of_lookupA_none {β : Type} (m : List (String × β)) (k : String) (v : β)
    (h : lookupA m k = none) : insertA m k v = m ++ [(k, v)] := by
  induction m with
  | nil => simp [insertA]
  | cons a rest ih =>
    obtain ⟨a1, a2⟩ := a
    by_cases h1 : a1 = k
    · simp [lookupA, h1] at h
    · simp [lookupA, h1] at h
      simp [insertA, h1, ih h]

theorem lookupA_insertA_self {β : Type} (m : List (String × β)) (k : String) (v : β) :
    lookupA (insertA m k v) k = some v := by
  induction m with
  | nil => simp [insertA, lookupA]
  | cons a rest ih =>
    obtain ⟨a1, a2⟩ := a
    by_cases h1 : a1 = k <;> simp [insertA, lookupA, h1, ih]

theorem remove_loop_count (doc_ids : List String) :
    ∀ md : List (String × Meta),
      (remove_loop md doc_ids).2 =
        (doc_ids.toFinset.filter (fun i => (lookupA md i).isSome = true)).card := by
  induction doc_ids with
  | nil => intro md; simp [remove_loop]
  | cons d rest ih =>
    intro md
    by_cases hd : (lookupA md d).isSome = true
    · have hstep : (remove_loop md (d :: rest)).2 = (remove_loop (eraseA md d) rest).2 + 1 := by
        simp [remove_loop, hd]
      rw [hstep, ih (eraseA md d)]
      have hset :
          (d :: rest).toFinset.filter (fun i => (lookupA md i).isSome = true) =
            insert d (rest.toFinset.filter
              (fun i => (lookupA (eraseA md d) i).isSome = true)) := by
        ext x
        by_cases hx : x = d
        · subst hx; simp [hd]
        · simp [hx, lookupA_eraseA, Finset.mem_filter, Finset.mem_insert]
      rw [hset, Finset.card_insert_of_not_mem]
      simp [lookupA_eraseA]
    · have hstep : (remove_loop md (d :: rest)).2 = (remove_loop md rest).2 := by
        simp [remove_loop, hd]
      rw [hstep, ih md]
      congr 1
      ext x
      by_cases hx : x = d
      · subst hx; simp [hd]
      · simp [hx]

end Faiss

/-! ## Stable-sort lemmas -/

section Sorting

variable {α κ : Type} [LinearOrder κ] (key : α → κ)

theorem insertDescBy_perm (x : α) (l : List α) : List.Perm (insertDescBy key x l) (x :: l) := by
  induction l with
  | nil => simp [insertDescBy]
  | cons y ys ih =>
    by_cases h : key y ≤ key x
    · simp [insertDescBy, h]
    · simp only [insertDescBy, if_neg h]
      exact (ih.cons y).trans (List.Perm.swap x y ys)

theorem sortDescBy_perm (l : List α) : List.Perm (sortDescBy key l) l := by
  induction l with
  | nil => simp [sortDescBy]
  | cons x xs ih => exact (insertDescBy_perm key x _).trans (ih.cons x)

theorem insertDescBy_pairwise (x : α) (l : List α)
    (h : l.Pairwise (fun a b => key b ≤ key a)) :
    (insertDescBy key x l).Pairwise (fun a b => key b ≤ key a) := by
  induction l with
  | nil => simp [insertDescBy]
  | cons y ys ih =>
    rcases List.pairwise_cons.mp h with ⟨hy, hys⟩
    by_cases hxy : key y ≤ key x
    · simp only [insertDescBy, if_pos hxy]
      refine List.pairwise_cons.mpr ⟨?_, h⟩
      intro b hb
      rcases List.mem_cons.mp hb with rfl | hb'
      · exact hxy
      · exact le_trans (hy b hb') hxy
    · simp only [insertDescBy, if_neg hxy]
      refine List.pairwise_cons.mpr ⟨?_, ih hys⟩
      intro b hb
      rcases List.mem_cons.mp ((insertDescBy_perm key x ys).mem_iff.mp hb) with rfl | hb'
      · exact le_of_not_le hxy
      · exact hy b hb'

theorem sortDescBy_pairwise (l : List α) :
    (sortDescBy key l).Pairwise (fun a b => key b ≤ key a) := by
  induction l with
  | nil => simp [sortDescBy]
  | cons x xs ih => exact insertDescBy_pairwise key x _ ih

theorem insertAscBy_perm (x : α) (l : List α) : List.Perm (insertAscBy key x l) (x :: l) := by
  induction l with
  | nil => simp [insertAscBy]
  | cons y ys ih =>
    by_cases h : key x ≤ key y
    · simp [insertAscBy, h]
    · simp only [insertAscBy, if_neg h]
      exact (ih.cons y).trans (List.Perm.swap x y ys)

theorem sortAscBy_perm (l : List α) : List.Perm (sortAscBy key l) l := by
  induction l with
  | nil => simp [sortAscBy]
  | cons x xs ih => exact (insertAscBy_perm key x _).trans (ih.cons x)

theorem insertAscBy_pairwise (x : α) (l : List α)
    (h : l.Pairwise (fun a b => key a ≤ key b)) :
    (insertAscBy key x l).Pairwise (fun a b => key a ≤ key b) := by
  induction l with
  | nil => simp [insertAscBy]
  | cons y ys ih =>
    rcases List.pairwise_cons.mp h with ⟨hy, hys⟩
    by_cases hxy : key x ≤ key y
    · simp only [insertAscBy, if_pos hxy]
      refine List.pairwise_cons.mpr ⟨?_, h⟩
      intro b hb
      rcases List.mem_cons.mp hb with rfl | hb'
      · exact hxy
      · exact le_trans hxy (hy b hb')
    · simp only [insertAscBy, if_neg hxy]
      refine List.pairwise_cons.mpr ⟨?_, ih hys⟩
      intro b hb
      rcases List.mem_cons.mp ((insertAscBy_perm key x ys).mem_iff.mp hb) with rfl | hb'
      · exact le_of_not_le hxy
      · exact hy b hb'

theorem sortAscBy_pairwise (l : List α) :
    (sortAscBy key l).Pairwise (fun a b => key a ≤ key b) := by
  induction l with
  | nil => simp [sortAscBy]
  | cons x xs ih => exact insertAscBy_pairwise key x _ ih

theorem pairwise_lt_of_pairwise_le {l : List α}
    (hle : l.Pairwise (fun a b => key a ≤ key b))
    (hnd : (l.map key).Nodup) :
    l.Pairwise (fun a b => key a < key b) := by
  have hne : l.Pairwise (fun a b => key a ≠ key b) := List.pairwise_map.mp hnd
  exact (hle.and hne).imp (fun h => lt_of_le_of_ne h.1 h.2)

theorem eq_of_perm_of_strict_sorted {l₁ l₂ : List α} (p : List.Perm l₁ l₂)
    (s₁ : l₁.Pairwise (fun a b => key a < key b))
    (s₂ : l₂.Pairwise (fun a b => key a < key b)) : l₁ = l₂ := by
  haveI : IsAntisymm α (fun a b => key a < key b) :=
    ⟨fun a b h1 h2 => absurd h2 (not_lt.mpr h1.le)⟩
  exact List.eq_of_perm_of_sorted p s₁ s₂

end Sorting

/-! ## Dual-search combiner lemmas -/

namespace DualSearch

theorem rank_confluence_part_mem {r : Res} :
    ∀ (i : Nat) (xs : List Res), r ∈ rank_confluence_part i xs →
      ∃ (j : Nat) (r' : Res), r' ∈ xs ∧
        r.final_rank = some (2 * ((i : Int) + j) + 1) ∧
        r.fallback_mode = some true ∧ r.source_type = r'.source_type := by
  intro i xs
  induction xs generalizing i with
  | nil => simp [rank_confluence_part]
  | cons x xs ih =>
    intro hr
    rcases List.mem_cons.mp hr with h | h
    · subst h
      refine ⟨0, x, List.mem_cons_self x xs, ?_, rfl, rfl⟩
      simp
    · obtain ⟨j, r', hr', hfr, hfb, hst⟩ := ih (i + 1) h
      refine ⟨j + 1, r', List.mem_cons_of_mem x hr', ?_, hfb, hst⟩
      rw [hfr]
      simp only [Option.some.injEq]
      push_cast
      ring

theorem rank_azure_part_mem {r : Res} :
    ∀ (i : Nat) (xs : List Res), r ∈ rank_azure_part i xs →
      ∃ (j : Nat) (r' : Res), r' ∈ xs ∧
        r.final_rank = some (2 * ((i : Int) + j) + 2) ∧
        r.fallback_mode = some true ∧ r.source_type = r'.source_type := by
  intro i xs
  induction xs generalizing i with
  | nil => simp [rank_azure_part]
  | cons x xs ih =>
    intro hr
    rcases List.mem_cons.mp hr with h | h
    · subst h
      refine ⟨0, x, List.mem_cons_self x xs, ?_, rfl, rfl⟩
      simp
    · obtain ⟨j, r', hr', hfr, hfb, hst⟩ := ih (i + 1) h
      refine ⟨j + 1, r', List.mem_cons_of_mem x hr', ?_, hfb, hst⟩
      rw [hfr]
      simp only [Option.some.injEq]
      push_cast
      ring

theorem rank_confluence_part_length (i : Nat) (xs : List Res) :
    (rank_confluence_part i xs).length = xs.length := by
  induction xs generalizing i with
  | nil => simp [rank_confluence_part]
  | cons x xs ih => simp [rank_confluence_part, ih]

theorem rank_azure_part_length (i : Nat) (xs : List Res) :
    (rank_azure_part i xs).length = xs.length := by
  induction xs generalizing i with
  | nil => simp [rank_azure_part]
  | cons x xs ih => simp [rank_azure_part, ih]

theorem rank_confluence_part_sorted (xs : List Res) :
    ∀ i : Nat, (rank_confluence_part i xs).Pairwise
      (fun a b => a.final_rank.getD 0 < b.final_rank.getD 0) := by
  induction xs with
  | nil => intro i; simp [rank_confluence_part]
  | cons x xs ih =>
    intro i
    refine List.pairwise_cons.mpr ⟨?_, ih (i + 1)⟩
    intro b hb
    obtain ⟨j, r', -, hfr, -, -⟩ := rank_confluence_part_mem (i + 1) xs hb
    rw [hfr]
    simp only [Option.getD_some]
    push_cast
    omega

theorem rank_azure_part_sorted (xs : List Res) :
    ∀ i : Nat, (rank_azure_part i xs).Pairwise
      (fun a b => a.final_rank.getD 0 < b.final_rank.getD 0) := by
  induction xs with
  | nil => intro i; simp [rank_azure_part]
  | cons x xs ih =>
    intro i
    refine List.pairwise_cons.mpr ⟨?_, ih (i + 1)⟩
    intro b hb
    obtain ⟨j, r', -, hfr, -, -⟩ := rank_azure_part_mem (i + 1) xs hb
    rw [hfr]
    simp only [Option.getD_some]
    push_cast
    omega

theorem interleave_nil_right : ∀ l : List Res, interleave l [] = l := by
  intro l
  cases l <;> simp [interleave]

theorem interleave_perm (l₁ : List Res) : ∀ l₂, List.Perm (interleave l₁ l₂) (l₁ ++ l₂) := by
  induction l₁ with
  | nil => intro l₂; simp [interleave]
  | cons x xs ih =>
    intro l₂
    cases l₂ with
    | nil => simp [interleave]
    | cons y ys =>
      have h1 : List.Perm (x :: y :: interleave xs ys) (x :: y :: (xs ++ ys)) :=
        ((ih ys).cons y).cons x
      refine h1.trans ?_
      simp only [List.cons_append]
      exact (List.perm_middle.symm).cons x

theorem interleave_length (l₁ l₂ : List Res) :
    (interleave l₁ l₂).length = l₁.length + l₂.length := by
  have := (interleave_perm l₁ l₂).length_eq
  simpa using this

theorem mem_interleave {r : Res} {l₁ l₂ : List Res} (h : r ∈ interleave l₁ l₂) :
    r ∈ l₁ ∨ r ∈ l₂ := by
  have := (interleave_perm l₁ l₂).mem_iff.mp h
  simpa using this

theorem interleave_parts_sorted (xs : List Res) :
    ∀ (ys : List Res) (i : Nat),
      (interleave (rank_confluence_part i xs) (rank_azure_part i ys)).Pairwise
        (fun a b => a.final_rank.getD 0 < b.final_rank.getD 0) := by
  induction xs with
  | nil =>
    intro ys i
    simpa [rank_confluence_part, interleave] using rank_azure_part_sorted ys i
  | cons x xs ih =>
    intro ys i
    cases ys with
    | nil =>
      rw [show rank_azure_part i ([] : List Res) = [] from rfl, interleave_nil_right]
      exact rank_confluence_part_sorted (x :: xs) i
    | cons y ys =>
      simp only [rank_confluence_part, rank_azure_part, interleave]
      refine List.pairwise_cons.mpr ⟨?_, List.pairwise_cons.mpr ⟨?_, ih ys (i + 1)⟩⟩
      · intro b hb
        rcases List.mem_cons.mp hb with h | h
        · rw [h]
          simp only [Option.getD_some]
          omega
        · rcases mem_interleave h with h' | h'
          · obtain ⟨j, r', -, hfr, -, -⟩ := rank_confluence_part_mem (i + 1) xs h'
            rw [hfr]
            simp only [Option.getD_some]
            push_cast
            omega
          · obtain ⟨j, r', -, hfr, -, -⟩ := rank_azure_part_mem (i + 1) ys h'
            rw [hfr]
            simp only [Option.getD_some]
            push_cast
            omega
      · intro b hb
        rcases mem_interleave hb with h' | h'
        · obtain ⟨j, r', -, hfr, -, -⟩ := rank_confluence_part_mem (i + 1) xs h'
          rw [hfr]
          simp only [Option.getD_some]
          push_cast
          omega
        · obtain ⟨j, r', -, hfr, -, -⟩ := rank_azure_part_mem (i + 1) ys h'
          rw [hfr]
          simp only [Option.getD_some]
          push_cast
          omega

theorem parts_append_keys_nodup (xs ys : List Res) (i : Nat) :
    (((rank_confluence_part i xs) ++ (rank_azure_part i ys)).map
      (fun r => r.final_rank.getD 0)).Nodup := by
  rw [List.map_append, List.nodup_append]
  refine ⟨?_, ?_, ?_⟩
  · exact List.pairwise_map.mpr
      ((rank_confluence_part_sorted xs i).imp (fun h => ne_of_lt h))
  · exact List.pairwise_map.mpr
      ((rank_azure_part_sorted ys i).imp (fun h => ne_of_lt h))
  · intro a ha hb
    obtain ⟨ra, hra, hka⟩ := List.mem_map.mp ha
    obtain ⟨rb, hrb, hkb⟩ := List.mem_map.mp hb
    obtain ⟨j, r', -, hfra, -, -⟩ := rank_confluence_part_mem i xs hra
    obtain ⟨j', r'', -, hfrb, -, -⟩ := rank_azure_part_mem i ys hrb
    rw [hfra] at hka
    rw [hfrb] at hkb
    simp only [Option.getD_some] at hka hkb
    omega

theorem sortAsc_parts_eq_interleave (xs ys : List Res) (i : Nat) :
    sortAscBy (fun r => r.final_rank.getD 0)
        (rank_confluence_part i xs ++ rank_azure_part i ys) =
      interleave (rank_confluence_part i xs) (rank_azure_part i ys) := by
  apply eq_of_perm_of_strict_sorted (fun r => r.final_rank.getD 0)
  · exact (sortAscBy_perm _ _).trans (interleave_perm _ _).symm
  · apply pairwise_lt_of_pairwise_le
    · exact sortAscBy_pairwise _ _
    · exact ((sortAscBy_perm (fun r : Res => r.final_rank.getD 0) _).map _).symm.nodup
        (parts_append_keys_nodup xs ys i)
  · exact interleave_parts_sorted xs ys i

theorem assign_final_ranks_length (L : List Res) :
    ∀ i, (assign_final_ranks i L).length = L.length := by
  induction L with
  | nil => intro i; simp [assign_final_ranks]
  | cons r rs ih => intro i; simp [assign_final_ranks, ih]

/-- The equal-representation fallback, when each source has enough
results: exactly the top half (rounded up) of the first list and the
remaining slots of the second, interleaved and renumbered. -/
theorem equal_representation_fallback_eq (C A : List Res) (top : Nat)
    (hC : (top + 1) / 2 ≤ C.length) (hA : top - (top + 1) / 2 ≤ A.length) :
    equal_representation_fallback C A top =
      assign_final_ranks 1
        (interleave (rank_confluence_part 0 (C.take ((top + 1) / 2)))
          (rank_azure_part 0 (A.take (top - (top + 1) / 2)))) := by
  have hc0 : min C.length ((top + 1) / 2) = (top + 1) / 2 := min_eq_right hC
  have ha0 : min A.length (top - (top + 1) / 2) = top - (top + 1) / 2 := min_eq_right hA
  have hcond1 : ¬ ((top + 1) / 2 < (top + 1) / 2 ∧ top - (top + 1) / 2 < A.length) := by
    omega
  have hcond2 : ¬ (top - (top + 1) / 2 < top / 2 ∧ (top + 1) / 2 < C.length) := by
    omega
  have hbody :
      equal_representation_fallback C A top =
        (assign_final_ranks 1 (sortAscBy (fun r => r.final_rank.getD 0)
          (rank_confluence_part 0 (C.take ((top + 1) / 2)) ++
            rank_azure_part 0 (A.take (top - (top + 1) / 2))))).take top := by
    simp only [equal_representation_fallback, hc0, ha0, hcond1, hcond2, if_false,
      and_false, false_and, if_neg (fun h => hcond1 h), if_neg (fun h => hcond2 h)]
  rw [hbody, sortAsc_parts_eq_interleave]
  have hlen :
      (assign_final_ranks 1
        (interleave (rank_confluence_part 0 (C.take ((top + 1) / 2)))
          (rank_azure_part 0 (A.take (top - (top + 1) / 2))))).length = top := by
    rw [assign_final_ranks_length, interleave_length, rank_confluence_part_length,
      rank_azure_part_length, List.length_take, List.length_take,
      min_eq_left hC, min_eq_left hA]
    omega
  exact List.take_of_length_le (le_of_eq hlen)

theorem forall₂_mem_left {γ δ : Type} {R : γ → δ → Prop} :
    ∀ {l1 : List γ} {l2 : List δ}, List.Forall₂ R l1 l2 → ∀ a ∈ l1, ∃ b ∈ l2, R a b := by
  intro l1 l2 h
  induction h with
  | nil => simp
  | cons hR hrest ih =>
    intro a ha
    rcases List.mem_cons.mp ha with rfl | ha'
    · exact ⟨_, List.mem_cons_self _ _, hR⟩
    · obtain ⟨b, hb, hRb⟩ := ih a ha'
      exact ⟨b, List.mem_cons_of_mem _ hb, hRb⟩

theorem forall₂_mem_right {γ δ : Type} {R : γ → δ → Prop} :
    ∀ {l1 : List γ} {l2 : List δ}, List.Forall₂ R l1 l2 → ∀ b ∈ l2, ∃ a ∈ l1, R a b := by
  intro l1 l2 h
  induction h with
  | nil => simp
  | cons hR hrest ih =>
    intro b hb
    rcases List.mem_cons.mp hb with rfl | hb'
    · exact ⟨_, List.mem_cons_self _ _, hR⟩
    · obtain ⟨a, ha, hRa⟩ := ih b hb'
      exact ⟨a, List.mem_cons_of_mem _ ha, hRa⟩

theorem process_confluence_results_forall₂ :
    ∀ {conf pc : List Res}, process_confluence_results conf = .ok pc →
      List.Forall₂ (fun r p => procConfluence r = .ok p) conf pc := by
  intro conf
  induction conf with
  | nil =>
    intro pc h
    simp only [process_confluence_results, Except.ok.injEq] at h
    rw [← h]
    exact List.Forall₂.nil
  | cons r rs ih =>
    intro pc h
    simp only [process_confluence_results] at h
    rcases hp : procConfluence r with e | p <;> rw [hp] at h
    · simp [Except.bind] at h
    · rcases hps : process_confluence_results rs with e | ps <;> rw [hps] at h
      · simp [Except.bind] at h
      · simp only [Except.bind, Except.ok.injEq] at h
        rw [← h]
        exact List.Forall₂.cons hp (ih hps)

theorem process_azure_results_forall₂ :
    ∀ {az pa : List Res}, process_azure_results az = .ok pa →
      List.Forall₂ (fun r p => procAzure r = .ok p) az pa := by
  intro az
  induction az with
  | nil =>
    intro pa h
    simp only [process_azure_results, Except.ok.injEq] at h
    rw [← h]
    exact List.Forall₂.nil
  | cons r rs ih =>
    intro pa h
    simp only [process_azure_results] at h
    rcases hp : procAzure r with e | p <;> rw [hp] at h
    · simp [Except.bind] at h
    · rcases hps : process_azure_results rs with e | ps <;> rw [hps] at h
      · simp [Except.bind] at h
      · simp only [Except.bind, Except.ok.injEq] at h
        rw [← h]
        exact List.Forall₂.cons hp (ih hps)

theorem procConfluence_ok_elim {r p : Res} (h : procConfluence r = .ok p) :
    p = { r with
      source_type := some Source.confluence
      vector_score := some (r.vector_score.getD (r.faiss_score.getD 0))
      lexical_score := some (r.lexical_score.getD (1 / (((r.rank.getD 1 : Int) : ℚ) + 1)))
      original_rank := some (r.rank.getD 0) } := by
  by_cases hc : (((r.rank.getD 1 : Int) : ℚ) + 1 = 0)
  · simp [procConfluence, hc] at h
  · simp only [procConfluence, if_neg hc, Except.ok.injEq] at h
    exact h.symm

theorem procAzure_ok_elim {r p : Res} (h : procAzure r = .ok p) :
    ∃ v l, extract_azure_vector_score r = .ok v ∧ extract_azure_lexical_score r = .ok l ∧
      p = { r with
        source_type := some Source.azure
        vector_score := some v
        lexical_score := some l
        original_rank := some (r.rank.getD (r.at_rank.getD 0)) } := by
  rw [procAzure] at h
  rcases hv : extract_azure_vector_score r with e | v <;> rw [hv] at h
  · simp [Except.bind] at h
  · rcases hl : extract_azure_lexical_score r with e | l <;> rw [hl] at h
    · simp [Except.bind] at h
    · simp only [Except.bind, Except.ok.injEq] at h
      exact ⟨v, l, rfl, rfl, h.symm⟩

end DualSearch

namespace DualSearch

theorem assign_final_ranks_mem {r : Res} :
    ∀ (i : Int) (L : List Res), r ∈ assign_final_ranks i L →
      ∃ r' ∈ L, r.fallback_mode = r'.fallback_mode ∧ r.source_type = r'.source_type ∧
        r.combined_score = r'.combined_score ∧
        r.final_weighted_score = r'.final_weighted_score ∧
        r.normalized_vector_score = r'.normalized_vector_score ∧
        r.normalized_lexical_score = r'.normalized_lexical_score ∧
        r.vector_score = r'.vector_score ∧ r.lexical_score = r'.lexical_score := by
  intro i L
  induction L generalizing i with
  | nil => simp [assign_final_ranks]
  | cons x xs ih =>
    intro hr
    rcases List.mem_cons.mp hr with h | h
    · subst h
      exact ⟨x, List.mem_cons_self x xs, rfl, rfl, rfl, rfl, rfl, rfl, rfl, rfl⟩
    · obtain ⟨r', hr', hs⟩ := ih (i + 1) h
      exact ⟨r', List.mem_cons_of_mem x hr', hs⟩

theorem assign_final_ranks_countP (p : Res → Bool)
    (hp : ∀ (r : Res) (k : Int), p { r with final_rank := some k } = p r) :
    ∀ (i : Int) (L : List Res), (assign_final_ranks i L).countP p = L.countP p := by
  intro i L
  induction L generalizing i with
  | nil => simp [assign_final_ranks]
  | cons x xs ih => simp [assign_final_ranks, List.countP_cons, hp, ih (i + 1)]

theorem assign_final_ranks_map_final_rank :
    ∀ (L : List Res) (i : Int),
      (assign_final_ranks i L).map (fun r => r.final_rank) =
        (List.range L.length).map (fun (j : Nat) => some (i + (j : Int))) := by
  intro L
  induction L with
  | nil => intro i; simp [assign_final_ranks]
  | cons x xs ih =>
    intro i
    simp only [assign_final_ranks, List.map_cons, ih (i + 1), List.length_cons,
      List.range_succ_eq_map, List.map_map]
    refine List.cons_eq_cons.mpr ⟨by simp, ?_⟩
    apply List.map_congr_left
    intro j hj
    simp only [Function.comp_apply, Option.some.injEq]
    push_cast
    ring

theorem assign_final_ranks_mem_eq {r : Res} :
    ∀ (i : Int) (L : List Res), r ∈ assign_final_ranks i L →
      ∃ r' ∈ L, ∃ k : Int, r = { r' with final_rank := some k } := by
  intro i L
  induction L generalizing i with
  | nil => simp [assign_final_ranks]
  | cons x xs ih =>
    intro hr
    rcases List.mem_cons.mp hr with h | h
    · exact ⟨x, List.mem_cons_self x xs, i, h⟩
    · obtain ⟨r', hr', k, hk⟩ := ih (i + 1) h
      exact ⟨r', List.mem_cons_of_mem x hr', k, hk⟩

theorem assign_final_ranks_pairwise {R : Res → Res → Prop}
    (hR : ∀ (a b : Res) (j k : Int),
      R a b → R { a with final_rank := some j } { b with final_rank := some k }) :
    ∀ (i : Int) (L : List Res), L.Pairwise R → (assign_final_ranks i L).Pairwise R := by
  intro i L
  induction L generalizing i with
  | nil => intro h; simp [assign_final_ranks]
  | cons x xs ih =>
    intro h
    rcases List.pairwise_cons.mp h with ⟨hx, hxs⟩
    refine List.pairwise_cons.mpr ⟨?_, ih (i + 1) hxs⟩
    intro b hb
    obtain ⟨b', hb', k, hsb⟩ := assign_final_ranks_mem_eq (i + 1) xs hb
    rw [hsb]
    exact hR x b' i k (hx b' hb')

theorem ranks_of_assign_take (L : List Res) (t : Nat) :
    ((assign_final_ranks 1 L).take t).map (fun r => r.final_rank) =
      (List.range ((assign_final_ranks 1 L).take t).length).map
        (fun (j : Nat) => some (1 + (j : Int))) := by
  rw [List.map_take, assign_final_ranks_map_final_rank, ← List.map_take, List.take_range,
    List.length_take, assign_final_ranks_length]

theorem process_confluence_results_nil_ok {pc : List Res}
    (h : process_confluence_results [] = .ok pc) : pc = [] := by
  simpa [process_confluence_results] using h.symm

theorem process_azure_results_nil_ok {pa : List Res}
    (h : process_azure_results [] = .ok pa) : pa = [] := by
  simpa [process_azure_results] using h.symm

/-- The FAISS-failure decision point: no Confluence result has a positive
vector score while some Azure result does, so the try block returns the
equal-representation fallback of the two processed lists. -/
theorem combine_try_body_fallback {conf azure : List Res} (top : Nat) (wC wA : ℚ)
    {pc pa : List Res}
    (hpc : process_confluence_results conf = .ok pc)
    (hpa : process_azure_results azure = .ok pa)
    (hflagC : pc.any (fun r => 0 < r.vector_score.getD 0) = false)
    (hflagA : pa.any (fun r => 0 < r.vector_score.getD 0) = true) :
    combine_try_body conf azure top wC wA =
      .ok (equal_representation_fallback pc pa top) := by
  have hane : azure.isEmpty = false := by
    cases haz : azure with
    | nil =>
      rw [haz] at hpa
      rw [process_azure_results_nil_ok hpa] at hflagA
      simp at hflagA
    | cons x xs => simp
  simp only [combine_try_body, hane, Bool.false_eq_true, and_false, if_false, hpc, hpa,
    Except.bind, hflagC, hflagA, not_false_eq_true, and_self, if_true]

/-- The normal path: the Confluence side has at least one positive vector
score, so the try block runs the pooled normalisation, weighted scoring,
descending stable sort and sequential ranking. -/
theorem combine_try_body_normal {conf azure : List Res} (top : Nat) (wC wA : ℚ)
    {pc pa : List Res}
    (hpc : process_confluence_results conf = .ok pc)
    (hpa : process_azure_results azure = .ok pa)
    (hflagC : pc.any (fun r => 0 < r.vector_score.getD 0) = true) :
    combine_try_body conf azure top wC wA =
      .ok ((assign_final_ranks 1 (sortDescBy (fun r => r.final_weighted_score.getD 0)
        ((normalize_scores (pc ++ pa)).map (score_result wC wA)))).take top) := by
  have hcne : conf.isEmpty = false := by
    cases hc : conf with
    | nil =>
      rw [hc] at hpc
      rw [process_confluence_results_nil_ok hpc] at hflagC
      simp at hflagC
    | cons x xs => simp
  have hpcne : pc ≠ [] := by
    intro h
    rw [h] at hflagC
    simp at hflagC
  have hallne : (pc ++ pa).isEmpty = false := by
    simp [List.isEmpty_iff, hpcne]
  simp only [combine_try_body, hcne, Bool.false_eq_true, false_and, if_false, hpc, hpa,
    Except.bind, hflagC, hallne, not_true, false_and, and_false]

/-- Every branch of the fallback is a renumbering of some list truncated
to its `top` argument. -/
theorem equal_representation_fallback_shape (C A : List Res) (t : Nat) :
    ∃ L, equal_representation_fallback C A t = (assign_final_ranks 1 L).take t := by
  unfold equal_representation_fallback
  exact ⟨_, rfl⟩

/-- Every successful outcome of the try block is either empty or a
renumbering of some list truncated to `top`. -/
theorem combine_try_body_shape (conf azure : List Res) (top : Nat) (wC wA : ℚ) :
    combine_try_body conf azure top wC wA = .error () ∨
      combine_try_body conf azure top wC wA = .ok [] ∨
      ∃ L, combine_try_body conf azure top wC wA = .ok ((assign_final_ranks 1 L).take top) := by
  unfold combine_try_body
  by_cases h1 : (conf.isEmpty = true ∧ azure.isEmpty = true)
  · rw [if_pos h1]
    exact Or.inr (Or.inl rfl)
  · rw [if_neg h1]
    rcases hpc : process_confluence_results conf with e | pc
    · cases e
      exact Or.inl (by simp [hpc, Except.bind])
    · rcases hpa : process_azure_results azure with e | pa
      · cases e
        exact Or.inl (by simp [hpc, hpa, Except.bind])
      · simp only [hpc, hpa, Except.bind]
        by_cases h2 : (¬ pc.any (fun r => 0 < r.vector_score.getD 0) = true ∧
            pa.any (fun r => 0 < r.vector_score.getD 0) = true)
        · rw [if_pos h2]
          obtain ⟨L, hL⟩ := equal_representation_fallback_shape pc pa top
          exact Or.inr (Or.inr ⟨L, by rw [hL]⟩)
        · rw [if_neg h2]
          by_cases h3 : ((pc ++ pa).isEmpty = true)
          · rw [if_pos h3]
            exact Or.inr (Or.inl rfl)
          · rw [if_neg h3]
            exact Or.inr (Or.inr ⟨sortDescBy (fun r => r.final_weighted_score.getD 0)
              ((normalize_scores (pc ++ pa)).map (score_result wC wA)), rfl⟩)

/-- Every output of the combiner, on every path including the exception
handler, is either empty or a renumbering of some list truncated to some
bound. -/
theorem combine_shape (conf azure : List Res) (top : Nat) (wC wA : ℚ) :
    combine_and_rerank_dual_results conf azure top wC wA = [] ∨
      ∃ L t, combine_and_rerank_dual_results conf azure top wC wA =
        (assign_final_ranks 1 L).take t := by
  unfold combine_and_rerank_dual_results
  rcases htb : combine_try_body conf azure top wC wA with e | rs
  · obtain ⟨L, hL⟩ := equal_representation_fallback_shape (conf.take (top / 2 + 1))
      (azure.take (top / 2 + 1)) (top * 2)
    exact Or.inr ⟨L, top * 2, hL⟩
  · -- analyse which branch of the try block produced rs
    unfold combine_try_body at htb
    by_cases h1 : (conf.isEmpty = true ∧ azure.isEmpty = true)
    · rw [if_pos h1] at htb
      left
      have : rs = [] := by simpa using htb.symm
      simpa using this
    · rw [if_neg h1] at htb
      rcases hpc : process_confluence_results conf with e | pc <;> rw [hpc] at htb
      · simp [Except.bind] at htb
      · rcases hpa : process_azure_results azure with e | pa <;> rw [hpa] at htb
        · simp [Except.bind] at htb
        · simp only [Except.bind] at htb
          by_cases h2 : (¬ pc.any (fun r => 0 < r.vector_score.getD 0) = true ∧
              pa.any (fun r => 0 < r.vector_score.getD 0) = true)
          · rw [if_pos h2] at htb
            obtain ⟨L, hL⟩ := equal_representation_fallback_shape pc pa top
            right
            refine ⟨L, top, ?_⟩
            have : rs = equal_representation_fallback pc pa top := by simpa using htb.symm
            rw [this, hL]
          · rw [if_neg h2] at htb
            by_cases h3 : ((pc ++ pa).isEmpty = true)
            · rw [if_pos h3] at htb
              left
              have : rs = [] := by simpa using htb.symm
              simpa using this
            · rw [if_neg h3] at htb
              right
              refine ⟨sortDescBy (fun r => r.final_weighted_score.getD 0)
                ((normalize_scores (pc ++ pa)).map (score_result wC wA)), top, ?_⟩
              have := htb.symm
              simpa using this

theorem equal_representation_fallback_length_le (C A : List Res) (t : Nat) :
    (equal_representation_fallback C A t).length ≤ t := by
  obtain ⟨L, hL⟩ := equal_representation_fallback_shape C A t
  rw [hL]
  simp [List.length_take_le]

theorem fallback_core_length_le_sum (C A : List Res) (t c a : Nat) :
    ((assign_final_ranks 1 (sortAscBy (fun r => r.final_rank.getD 0)
      (rank_confluence_part 0 (C.take c) ++ rank_azure_part 0 (A.take a)))).take t).length ≤
      C.length + A.length := by
  rw [List.length_take, assign_final_ranks_length,
    (sortAscBy_perm (fun r : Res => r.final_rank.getD 0) _).length_eq, List.length_append,
    rank_confluence_part_length, rank_azure_part_length, List.length_take, List.length_take]
  omega

theorem equal_representation_fallback_length_le_sum (C A : List Res) (t : Nat) :
    (equal_representation_fallback C A t).length ≤ C.length + A.length := by
  unfold equal_representation_fallback
  exact fallback_core_length_le_sum C A t _ _

end DualSearch

/-! ## Claim theorems -/

open DualSearch Faiss Confluence Orchestrate

/-- Claim C3, counterexample: a bot profile configured for dual-source
mode together with an explicit agentic-retrieval override selects the
dual-search approach, not the agentic-retrieval approach, so the
explicit agentic request does not take priority. -/
theorem c3_agentic_priority_counterexample :
    select_search_approach false true false true = SearchApproach.dualSearch ∧
      select_search_approach false true false true ≠ SearchApproach.agenticRetrieval := by
  decide

/-- Claim C3, amended: the orchestrator selects the agentic-retrieval
approach exactly when RAG is enabled, the active profile configures
neither dual-source mode nor the wiki connector, and the caller
explicitly requests agentic retrieval; dual-source mode and the wiki
connector take priority over the explicit request. -/
theorem c3_agentic_selection_amended (disable_rag dual_search use_confluence_search agentic : Bool) :
    select_search_approach disable_rag dual_search use_confluence_search agentic =
        SearchApproach.agenticRetrieval ↔
      disable_rag = false ∧ dual_search = false ∧ use_confluence_search = false ∧
        agentic = true := by
  revert disable_rag dual_search use_confluence_search agentic
  decide

/-- Claim C8: `search_confluence_content` never raises to its caller,
and it returns the empty list on any network-layer exception, on any
non-2xx response (the source in fact treats everything but 200 this
way), and on any exception while reading or parsing the response body. -/
theorem c8_search_confluence_never_raises {R : Type}
    (net : Except Unit (Nat × Except Unit (List R))) :
    (∃ rs, search_confluence_content net = .ok rs) ∧
      (∀ e, net = .error e → search_confluence_content net = .ok []) ∧
      (∀ status body, net = .ok (status, body) → (status < 200 ∨ 300 ≤ status) →
        search_confluence_content net = .ok []) ∧
      (∀ status e, net = .ok (status, .error e) → search_confluence_content net = .ok []) := by
  rcases net with e | ⟨status, body⟩
  · exact ⟨⟨[], rfl⟩, fun _ _ => rfl, fun status body h => Except.noConfusion h,
      fun status e h => Except.noConfusion h⟩
  · by_cases h200 : status = 200
    · subst h200
      rcases body with e | rs
      · exact ⟨⟨[], rfl⟩, fun e h => Except.noConfusion h, fun s b hsb hrange => rfl,
          fun s e h => rfl⟩
      · refine ⟨⟨rs, rfl⟩, fun e h => Except.noConfusion h, ?_, ?_⟩
        · intro s b hsb hrange
          simp only [Except.ok.injEq, Prod.mk.injEq] at hsb
          obtain ⟨hs, -⟩ := hsb
          omega
        · intro s e h
          simp only [Except.ok.injEq, Prod.mk.injEq] at h
          exact Except.noConfusion h.2
    · have hbody : search_confluence_content (R := R) (.ok (status, body)) = .ok [] := by
        simp [search_confluence_content, search_confluence_try_body, Bind.bind, Except.bind,
          pure, Except.pure, h200]
      exact ⟨⟨[], hbody⟩, fun e h => hbody, fun s b hsb hrange => hbody,
        fun s e h => hbody⟩

/-- Claim C8, witness: a concrete 500 response yields an ok empty
result. -/
theorem c8_search_confluence_witness :
    (∃ rs, search_confluence_content (R := Nat) (.ok (500, .ok [7])) = .ok rs) ∧
      (∀ e, (Except.ok (ε := Unit) (500, Except.ok (ε := Unit) [7])) = .error e →
        search_confluence_content (R := Nat) (.ok (500, .ok [7])) = .ok []) ∧
      (∀ status body,
        (Except.ok (ε := Unit) (500, Except.ok (ε := Unit) [7])) = .ok (status, body) →
        (status < 200 ∨ 300 ≤ status) →
        search_confluence_content (R := Nat) (.ok (500, .ok [7])) = .ok []) ∧
      (∀ status e,
        (Except.ok (ε := Unit) (500, Except.ok (ε := Unit) [7])) = .ok (status, .error e) →
        search_confluence_content (R := Nat) (.ok (500, .ok [7])) = .ok []) :=
  c8_search_confluence_never_raises (.ok (500, .ok [7]))

/-- Claim C10: `remove_documents` only touches the tracked-document
metadata map and the pending-additions buffer; the stored index vectors
(and hence the stored-vector count) and the embedding cache are
unchanged, and the returned count is the number of distinct requested
ids that were present in the metadata map. -/
theorem c10_remove_documents_frame (st : FState) (doc_ids : List String) :
    (remove_documents st doc_ids).2.faiss_index = st.faiss_index ∧
      (remove_documents st doc_ids).2.embedding_cache = st.embedding_cache ∧
      (remove_documents st doc_ids).2.cache_timestamps = st.cache_timestamps ∧
      (remove_documents st doc_ids).1 =
        (doc_ids.toFinset.filter
          (fun i => (lookupA st.document_metadata i).isSome = true)).card := by
  by_cases h : doc_ids.isEmpty
  · have : doc_ids = [] := List.isEmpty_iff.mp h
    subst this
    simp [remove_documents]
  · refine ⟨?_, ?_, ?_, ?_⟩ <;> simp [remove_documents, h, remove_loop_count]

/-- Claim C9: a document whose content hash is already an embedding-cache
key is treated as a duplicate even under a brand-new id: `add_documents`
embeds nothing, queues nothing, returns 0, and yet appends a fresh
metadata entry for the new id, so the tracked-document map grows without
any vector being admitted. -/
theorem c9_cached_hash_duplicate (md5 : String → String) (normL2 : Vec → Vec) (st : FState)
    (idx : List Vec) (doc_id text : String) (hasClient : Bool) (now : ℚ)
    (oracle : String → Nat → Option Vec) (emb : Vec)
    (hidx : st.faiss_index = some idx)
    (hid : ¬ doc_id = "") (htext : ¬ text = "")
    (hmeta : lookupA st.document_metadata doc_id = none)
    (hcache : lookupA st.embedding_cache (md5 (text.take 8000)) = some emb) :
    add_documents md5 normL2 st [⟨some doc_id, some text⟩] hasClient now oracle =
      (0, { st with document_metadata :=
              st.document_metadata ++
                [(doc_id, ⟨doc_id, now, some (md5 (text.take 8000))⟩)] }) ∧
      (add_documents md5 normL2 st [⟨some doc_id, some text⟩] hasClient now oracle).2.pending_additions =
        st.pending_additions ∧
      (add_documents md5 normL2 st [⟨some doc_id, some text⟩] hasClient now oracle).2.faiss_index =
        st.faiss_index ∧
      (add_documents md5 normL2 st [⟨some doc_id, some text⟩] hasClient now oracle).2.document_metadata.length =
        st.document_metadata.length + 1 := by
  have hmain :
      add_documents md5 normL2 st [⟨some doc_id, some text⟩] hasClient now oracle =
        (0, { st with document_metadata :=
              st.document_metadata ++
                [(doc_id, ⟨doc_id, now, some (md5 (text.take 8000))⟩)] }) := by
    simp only [add_documents, hidx]
    simp [filter_new, is_document_in_index, hid, htext, hmeta, hcache, hidx,
      insertA_of_lookupA_none st.document_metadata doc_id _ hmeta]
  refine ⟨hmain, ?_, ?_, ?_⟩ <;> rw [hmain] <;> simp

set_option maxRecDepth 8000 in
/-- Claim C9, witness: with an empty metadata map, an empty index and a
cache already holding the hash of the text, adding a one-document list
under a new id returns 0 additions and creates one tracked id, so one id
is tracked while zero vectors were ever admitted. -/
theorem c9_cached_hash_duplicate_witness :
    add_documents (fun _ => "H") (fun v => v)
        ⟨some [], [], [("H", [5])], [("H", 0)], []⟩
        [⟨some "newid", some "sametext"⟩] true 7 (fun _ _ => some [1]) =
      (0, { (⟨some [], [], [("H", [5])], [("H", 0)], []⟩ : FState) with
            document_metadata := ([] : List (String × Meta)) ++
              [("newid", ⟨"newid", 7, some "H"⟩)] }) ∧
      (add_documents (fun _ => "H") (fun v => v)
          ⟨some [], [], [("H", [5])], [("H", 0)], []⟩
          [⟨some "newid", some "sametext"⟩] true 7 (fun _ _ => some [1])).2.pending_additions =
        ([] : List PendingItem) ∧
      (add_documents (fun _ => "H") (fun v => v)
          ⟨some [], [], [("H", [5])], [("H", 0)], []⟩
          [⟨some "newid", some "sametext"⟩] true 7 (fun _ _ => some [1])).2.faiss_index =
        some [] ∧
      (add_documents (fun _ => "H") (fun v => v)
          ⟨some [], [], [("H", [5])], [("H", 0)], []⟩
          [⟨some "newid", some "sametext"⟩] true 7 (fun _ _ => some [1])).2.document_metadata.length =
        ([] : List (String × Meta)).length + 1 :=
  c9_cached_hash_duplicate (fun _ => "H") (fun v => v)
    ⟨some [], [], [("H", [5])], [("H", 0)], []⟩ [] "newid" "sametext" true 7
    (fun _ _ => some [1]) [5] rfl (by decide) (by decide) rfl rfl

/-- Claim C1: the code violates the flush-before-search guarantee at the
empty-index state.  Starting from a fresh manager, `add_documents` queues
document d1 as a pending addition (1 queued, index still empty), and the
immediately following `search` hits the empty-index early return that
precedes the flush: it returns no results and leaves the pending
addition unflushed, so d1 cannot be returned however similar it is. -/
theorem c1_flush_before_search_violated :
    (add_documents (fun _ => "h1") (fun v => v) ⟨some [], [], [], [], []⟩
        [⟨some "d1", some "hello"⟩] true 0 (fun _ _ => some [1])).1 = 1 ∧
      (add_documents (fun _ => "h1") (fun v => v) ⟨some [], [], [], [], []⟩
          [⟨some "d1", some "hello"⟩] true 0 (fun _ _ => some [1])).2.pending_additions.length = 1 ∧
      (add_documents (fun _ => "h1") (fun v => v) ⟨some [], [], [], [], []⟩
          [⟨some "d1", some "hello"⟩] true 0 (fun _ _ => some [1])).2.faiss_index = some [] ∧
      (search (fun _ => "h1") (fun v => v) (fun _ _ => 1)
          (add_documents (fun _ => "h1") (fun v => v) ⟨some [], [], [], [], []⟩
            [⟨some "d1", some "hello"⟩] true 0 (fun _ _ => some [1])).2
          none (some "hello") true true 0 (fun _ => some [1]) 10 none).1 = .ok [] ∧
      (search (fun _ => "h1") (fun v => v) (fun _ _ => 1)
          (add_documents (fun _ => "h1") (fun v => v) ⟨some [], [], [], [], []⟩
            [⟨some "d1", some "hello"⟩] true 0 (fun _ _ => some [1])).2
          none (some "hello") true true 0 (fun _ => some [1]) 10 none).2.pending_additions.length = 1 := by
  refine ⟨?_, ?_, ?_, ?_, ?_⟩ <;>
    simp [add_documents, search, filter_new, is_document_in_index, process_documents,
      get_embedding, embed_attempts, cache_store, lookupA, insertA, flush_pending_additions,
      EMBEDDING_RETRY_ATTEMPTS, INDEX_UPDATE_BATCH_SIZE]

/-- Claim C2: when every Confluence result carries a non-positive vector
score and some Azure result a positive one, the combiner switches to the
equal-representation fallback: the top `(top+1)/2` processed Confluence
results and the top `top - (top+1)/2` processed Azure results (native
order), interleaved starting with Confluence and renumbered 1..top; every
returned result is marked `fallback_mode`, Confluence supplies exactly
`(top+1)/2 ≥ top/2` of the `top` returned results.  The hypotheses
require the processing loops to succeed (no `rank = -1`
division-by-zero) and each source to hold enough results. -/
theorem c2_fallback_equal_representation (conf azure : List Res) (top : Nat) (wC wA : ℚ)
    (pc pa : List Res)
    (hpc : process_confluence_results conf = .ok pc)
    (hpa : process_azure_results azure = .ok pa)
    (hnov : ∀ r ∈ conf, r.vector_score.getD (r.faiss_score.getD 0) ≤ 0)
    (hpos : ∃ r ∈ azure, ∃ v, extract_azure_vector_score r = .ok v ∧ 0 < v)
    (hlc : (top + 1) / 2 ≤ conf.length)
    (hla : top - (top + 1) / 2 ≤ azure.length) :
    combine_and_rerank_dual_results conf azure top wC wA =
      assign_final_ranks 1
        (interleave (rank_confluence_part 0 (pc.take ((top + 1) / 2)))
          (rank_azure_part 0 (pa.take (top - (top + 1) / 2)))) ∧
      (∀ r ∈ combine_and_rerank_dual_results conf azure top wC wA,
        r.fallback_mode = some true) ∧
      (combine_and_rerank_dual_results conf azure top wC wA).countP
        (fun r => decide (r.source_type = some Source.confluence)) = (top + 1) / 2 ∧
      (combine_and_rerank_dual_results conf azure top wC wA).length = top := by
  have hf2c := process_confluence_results_forall₂ hpc
  have hf2a := process_azure_results_forall₂ hpa
  have hflagC : pc.any (fun r => 0 < r.vector_score.getD 0) = false := by
    rw [List.any_eq_false]
    intro p hp
    obtain ⟨r, hr, hproc⟩ := forall₂_mem_right hf2c p hp
    have hchar := procConfluence_ok_elim hproc
    have hv : p.vector_score = some (r.vector_score.getD (r.faiss_score.getD 0)) := by
      rw [hchar]
    simp only [hv, Option.getD_some, decide_eq_true_eq, not_lt]
    exact hnov r hr
  have hflagA : pa.any (fun r => 0 < r.vector_score.getD 0) = true := by
    obtain ⟨r, hr, v, hex, hvpos⟩ := hpos
    obtain ⟨p, hp, hproc⟩ := forall₂_mem_left hf2a r hr
    obtain ⟨v', l', hv', hl', hchar⟩ := procAzure_ok_elim hproc
    rw [hex] at hv'
    have hveq : v = v' := by
      injection hv'
    rw [List.any_eq_true]
    refine ⟨p, hp, ?_⟩
    have hps : p.vector_score = some v' := by rw [hchar]
    simp only [hps, Option.getD_some, decide_eq_true_eq]
    rw [← hveq]
    exact hvpos
  have htb := combine_try_body_fallback top wC wA hpc hpa hflagC hflagA
  have hcomb : combine_and_rerank_dual_results conf azure top wC wA =
      equal_representation_fallback pc pa top := by
    unfold combine_and_rerank_dual_results
    rw [htb]
  have hlc' : (top + 1) / 2 ≤ pc.length := hf2c.length_eq ▸ hlc
  have hla' : top - (top + 1) / 2 ≤ pa.length := hf2a.length_eq ▸ hla
  have hfb := equal_representation_fallback_eq pc pa top hlc' hla'
  refine ⟨hcomb.trans hfb, ?_, ?_, ?_⟩
  · intro r hr
    rw [hcomb, hfb] at hr
    obtain ⟨r', hr', hfbm, -⟩ := assign_final_ranks_mem 1 _ hr
    rcases mem_interleave hr' with h | h
    · obtain ⟨j, r'', -, -, hfb', -⟩ := rank_confluence_part_mem 0 _ h
      rw [hfbm, hfb']
    · obtain ⟨j, r'', -, -, hfb', -⟩ := rank_azure_part_mem 0 _ h
      rw [hfbm, hfb']
  · rw [hcomb, hfb,
      assign_final_ranks_countP (fun r => decide (r.source_type = some Source.confluence))
        (fun r k => rfl),
      (interleave_perm _ _).countP_eq, List.countP_append]
    have hcC : (rank_confluence_part 0 (pc.take ((top + 1) / 2))).countP
        (fun r => decide (r.source_type = some Source.confluence)) =
        (top + 1) / 2 := by
      have hall : ∀ a ∈ rank_confluence_part 0 (pc.take ((top + 1) / 2)),
          (fun r => decide (r.source_type = some Source.confluence)) a = true := by
        intro a ha
        obtain ⟨j, r', hr', -, -, hst⟩ := rank_confluence_part_mem 0 _ ha
        obtain ⟨r0, hr0, hproc⟩ := forall₂_mem_right hf2c r'
          (List.take_subset _ _ hr')
        have hchar := procConfluence_ok_elim hproc
        have hsrc : r'.source_type = some Source.confluence := by rw [hchar]
        simp [hst, hsrc]
      rw [List.countP_eq_length.mpr hall, rank_confluence_part_length, List.length_take,
        min_eq_left hlc']
    have hcA : (rank_azure_part 0 (pa.take (top - (top + 1) / 2))).countP
        (fun r => decide (r.source_type = some Source.confluence)) = 0 := by
      have hnone : ∀ a ∈ rank_azure_part 0 (pa.take (top - (top + 1) / 2)),
          ¬ (fun r => decide (r.source_type = some Source.confluence)) a = true := by
        intro a ha
        obtain ⟨j, r', hr', -, -, hst⟩ := rank_azure_part_mem 0 _ ha
        obtain ⟨r0, hr0, hproc⟩ := forall₂_mem_right hf2a r'
          (List.take_subset _ _ hr')
        obtain ⟨v, l, -, -, hchar⟩ := procAzure_ok_elim hproc
        have hsrc : r'.source_type = some Source.azure := by rw [hchar]
        simp [hst, hsrc]
      rw [List.countP_eq_zero.mpr hnone]
    rw [hcC, hcA]
    omega
  · rw [hcomb, hfb, assign_final_ranks_length, interleave_length,
      rank_confluence_part_length, rank_azure_part_length, List.length_take,
      List.length_take, min_eq_left hlc', min_eq_left hla']
    omega

/-- Claim C2, witness: one zero-vector Confluence result and one
positive-vector Azure result with `top = 1`. -/
theorem c2_fallback_equal_representation_witness :
    combine_and_rerank_dual_results
        [{ Res.base "c1" with vector_score := some 0, lexical_score := some 1 }]
        [{ Res.base "a1" with vector_score := some 2, lexical_score := some 1 }] 1 0.5 0.5 =
      assign_final_ranks 1
        (interleave
          (rank_confluence_part 0
            (List.take ((1 + 1) / 2)
              [{ Res.base "c1" with vector_score := some 0, lexical_score := some 1, source_type := some Source.confluence, original_rank := some 0 }]))
          (rank_azure_part 0
            (List.take (1 - (1 + 1) / 2)
              [{ Res.base "a1" with vector_score := some 2, lexical_score := some 1, source_type := some Source.azure, original_rank := some 0 }]))) ∧
      (∀ r ∈ combine_and_rerank_dual_results
          [{ Res.base "c1" with vector_score := some 0, lexical_score := some 1 }]
          [{ Res.base "a1" with vector_score := some 2, lexical_score := some 1 }] 1 0.5 0.5,
        r.fallback_mode = some true) ∧
      (combine_and_rerank_dual_results
          [{ Res.base "c1" with vector_score := some 0, lexical_score := some 1 }]
          [{ Res.base "a1" with vector_score := some 2, lexical_score := some 1 }]
          1 0.5 0.5).countP
        (fun r => decide (r.source_type = some Source.confluence)) = (1 + 1) / 2 ∧
      (combine_and_rerank_dual_results
          [{ Res.base "c1" with vector_score := some 0, lexical_score := some 1 }]
          [{ Res.base "a1" with vector_score := some 2, lexical_score := some 1 }]
          1 0.5 0.5).length = 1 :=
  c2_fallback_equal_representation
    [{ Res.base "c1" with vector_score := some 0, lexical_score := some 1 }]
    [{ Res.base "a1" with vector_score := some 2, lexical_score := some 1 }] 1 0.5 0.5
    [{ Res.base "c1" with vector_score := some 0, lexical_score := some 1, source_type := some Source.confluence, original_rank := some 0 }]
    [{ Res.base "a1" with vector_score := some 2, lexical_score := some 1, source_type := some Source.azure, original_rank := some 0 }]
    (by norm_num [process_confluence_results, procConfluence, Except.bind, Res.base])
    (by norm_num [process_azure_results, procAzure, extract_azure_vector_score,
      extract_azure_lexical_score, Except.bind, Res.base])
    (by intro r hr
        simp only [List.mem_singleton] at hr
        subst hr
        norm_num [Res.base])
    (⟨{ Res.base "a1" with vector_score := some 2, lexical_score := some 1 },
      List.mem_singleton.mpr rfl, 2, rfl, by norm_num⟩)
    (by norm_num)
    (by norm_num)

namespace DualSearch

theorem vector_range_pos (rs : List Res) : 0 < vector_range rs := by
  unfold vector_range
  split_ifs with h1 h2
  · norm_num
  · linarith
  · norm_num

theorem lexical_range_pos (rs : List Res) : 0 < lexical_range rs := by
  unfold lexical_range
  split_ifs with h1 h2
  · norm_num
  · linarith
  · norm_num

theorem normalize_one_fields (rs : List Res) (r : Res) :
    (normalize_one rs r).normalized_vector_score =
        some ((r.vector_score.getD 0 - min_vector rs) / vector_range rs) ∧
      (normalize_one rs r).normalized_lexical_score =
        some ((r.lexical_score.getD 0 - min_lexical rs) / lexical_range rs) ∧
      (normalize_one rs r).vector_score = r.vector_score ∧
      (normalize_one rs r).lexical_score = r.lexical_score ∧
      (normalize_one rs r).source_type = r.source_type := by
  have h1 := vector_range_pos rs
  have h2 := lexical_range_pos rs
  refine ⟨?_, ?_, rfl, rfl, rfl⟩ <;> simp [normalize_one, h1, h2]

theorem score_result_fields (wC wA : ℚ) (q : Res) :
    (score_result wC wA q).combined_score =
        some (0.3 * q.normalized_lexical_score.getD 0 +
          0.7 * q.normalized_vector_score.getD 0) ∧
      (score_result wC wA q).final_weighted_score =
        some ((0.3 * q.normalized_lexical_score.getD 0 +
            0.7 * q.normalized_vector_score.getD 0) *
          (if q.source_type = some Source.confluence then wC else wA) *
          (if q.source_type = some Source.confluence then 1.1 else 1)) ∧
      (score_result wC wA q).normalized_vector_score = q.normalized_vector_score ∧
      (score_result wC wA q).normalized_lexical_score = q.normalized_lexical_score ∧
      (score_result wC wA q).source_type = q.source_type ∧
      (score_result wC wA q).vector_score = q.vector_score ∧
      (score_result wC wA q).lexical_score = q.lexical_score :=
  ⟨rfl, rfl, rfl, rfl, rfl, rfl, rfl⟩

/-- Every result returned on the normal path carries the score fields of
one scored, normalised pool element. -/
theorem combine_normal_mem {conf azure : List Res} {top : Nat} {wC wA : ℚ} {pc pa : List Res}
    (hpc : process_confluence_results conf = .ok pc)
    (hpa : process_azure_results azure = .ok pa)
    (hcv : pc.any (fun r => 0 < r.vector_score.getD 0) = true)
    {r : Res} (hr : r ∈ combine_and_rerank_dual_results conf azure top wC wA) :
    ∃ q ∈ normalize_scores (pc ++ pa),
      r.combined_score = (score_result wC wA q).combined_score ∧
      r.final_weighted_score = (score_result wC wA q).final_weighted_score ∧
      r.normalized_vector_score = q.normalized_vector_score ∧
      r.normalized_lexical_score = q.normalized_lexical_score ∧
      r.source_type = q.source_type ∧
      r.vector_score = q.vector_score ∧ r.lexical_score = q.lexical_score := by
  have htb := combine_try_body_normal top wC wA hpc hpa hcv
  have hcomb : combine_and_rerank_dual_results conf azure top wC wA =
      (assign_final_ranks 1 (sortDescBy (fun r => r.final_weighted_score.getD 0)
        ((normalize_scores (pc ++ pa)).map (score_result wC wA)))).take top := by
    unfold combine_and_rerank_dual_results
    rw [htb]
  rw [hcomb] at hr
  have hr1 := List.take_subset _ _ hr
  obtain ⟨r', hr', hfb, hst, hcs, hfws, hnv, hnl, hv, hl⟩ :=
    assign_final_ranks_mem 1 _ hr1
  have hr'' : r' ∈ (normalize_scores (pc ++ pa)).map (score_result wC wA) :=
    (sortDescBy_perm _ _).mem_iff.mp hr'
  obtain ⟨q, hq, hqe⟩ := List.mem_map.mp hr''
  obtain ⟨-, -, hsnv, hsnl, hsst, hsv, hsl⟩ := score_result_fields wC wA q
  refine ⟨q, hq, ?_, ?_, ?_, ?_, ?_, ?_, ?_⟩
  · rw [hcs, ← hqe]
  · rw [hfws, ← hqe]
  · rw [hnv, ← hqe, hsnv]
  · rw [hnl, ← hqe, hsnl]
  · rw [hst, ← hqe, hsst]
  · rw [hv, ← hqe, hsv]
  · rw [hl, ← hqe, hsl]

end DualSearch

/-- Claim C4, counterexample: on the normal path with default weights,
a Confluence result with combined score 0.9375 outranks (final rank 1,
thanks to the 1.1 Confluence boost on the weighted score) an Azure result
with combined score 1 (final rank 2), so `combined_score` strictly
increases from rank 1 to rank 2 and is not non-increasing in
`final_rank`. -/
theorem c4_combined_score_monotonicity_counterexample :
    ((combine_and_rerank_dual_results
        [{ Res.base "x" with vector_score := some 0.9375, lexical_score := some 0.9375 }]
        [{ Res.base "y" with vector_score := some 1, lexical_score := some 1 },
         { Res.base "z" with vector_score := some 0, lexical_score := some 0 }]
        3 0.5 0.5).map (fun r => (r.final_rank, r.combined_score))) =
      [(some 1, some 0.9375), (some 2, some 1), (some 3, some 0)] ∧
      (0.9375 : ℚ) < 1 := by
  constructor
  · have hsa : ¬ (Source.azure = Source.confluence) := by decide
    norm_num [hsa, DualSearch.combine_and_rerank_dual_results, DualSearch.combine_try_body,
      DualSearch.process_confluence_results, DualSearch.process_azure_results,
      DualSearch.procConfluence, DualSearch.procAzure, DualSearch.extract_azure_vector_score,
      DualSearch.extract_azure_lexical_score, Except.bind, DualSearch.Res.base,
      DualSearch.normalize_scores, DualSearch.normalize_one, DualSearch.pool_vector_scores,
      DualSearch.pool_lexical_scores, DualSearch.max_vector, DualSearch.min_vector,
      DualSearch.vector_range, DualSearch.max_lexical, DualSearch.min_lexical,
      DualSearch.lexical_range, DualSearch.listMax, DualSearch.listMin,
      DualSearch.score_result, sortDescBy, insertDescBy, DualSearch.assign_final_ranks,
      List.filter, List.any]
  · norm_num

/-- Claim C4, amended: on every path (normal, fallback and the exception
handler) the `final_rank` fields of the returned list form the strict
sequence 1..N; on the normal path it is the `final_weighted_score` (the
combined score multiplied by the source weight and boost), not the
`combined_score`, that is non-increasing as `final_rank` increases. -/
theorem c4_rank_sequence_amended (conf azure : List Res) (top : Nat) (wC wA : ℚ) :
    (combine_and_rerank_dual_results conf azure top wC wA).map (fun r => r.final_rank) =
      (List.range (combine_and_rerank_dual_results conf azure top wC wA).length).map
        (fun (j : Nat) => some (1 + (j : Int))) ∧
      (∀ pc pa, process_confluence_results conf = .ok pc →
        process_azure_results azure = .ok pa →
        pc.any (fun r => 0 < r.vector_score.getD 0) = true →
        (combine_and_rerank_dual_results conf azure top wC wA).Pairwise
          (fun a b => b.final_weighted_score.getD 0 ≤ a.final_weighted_score.getD 0)) := by
  constructor
  · rcases combine_shape conf azure top wC wA with h | ⟨L, t, h⟩
    · rw [h]
      simp
    · rw [h]
      exact ranks_of_assign_take L t
  · intro pc pa hpc hpa hflagC
    have htb := combine_try_body_normal top wC wA hpc hpa hflagC
    have hcomb : combine_and_rerank_dual_results conf azure top wC wA =
        (assign_final_ranks 1 (sortDescBy (fun r => r.final_weighted_score.getD 0)
          ((normalize_scores (pc ++ pa)).map (score_result wC wA)))).take top := by
      unfold combine_and_rerank_dual_results
      rw [htb]
    rw [hcomb]
    refine List.Pairwise.sublist (List.take_sublist _ _) ?_
    refine assign_final_ranks_pairwise ?_ 1 _ (sortDescBy_pairwise _ _)
    intro a b j k hab
    exact hab

/-- Claim C4, amended, witness: the counterexample input of
`c4_combined_score_monotonicity_counterexample` satisfies the rank
sequence, and the weighted scores are non-increasing on the normal
path. -/
theorem c4_rank_sequence_amended_witness :
    (combine_and_rerank_dual_results
        [{ Res.base "x" with vector_score := some 0.9375, lexical_score := some 0.9375 }]
        [{ Res.base "y" with vector_score := some 1, lexical_score := some 1 },
         { Res.base "z" with vector_score := some 0, lexical_score := some 0 }]
        3 0.5 0.5).map (fun r => r.final_rank) =
      (List.range (combine_and_rerank_dual_results
        [{ Res.base "x" with vector_score := some 0.9375, lexical_score := some 0.9375 }]
        [{ Res.base "y" with vector_score := some 1, lexical_score := some 1 },
         { Res.base "z" with vector_score := some 0, lexical_score := some 0 }]
        3 0.5 0.5).length).map (fun (j : Nat) => some (1 + (j : Int))) ∧
      (∀ pc pa, process_confluence_results
          [{ Res.base "x" with vector_score := some 0.9375, lexical_score := some 0.9375 }] = .ok pc →
        process_azure_results
          [{ Res.base "y" with vector_score := some 1, lexical_score := some 1 },
           { Res.base "z" with vector_score := some 0, lexical_score := some 0 }] = .ok pa →
        pc.any (fun r => 0 < r.vector_score.getD 0) = true →
        (combine_and_rerank_dual_results
          [{ Res.base "x" with vector_score := some 0.9375, lexical_score := some 0.9375 }]
          [{ Res.base "y" with vector_score := some 1, lexical_score := some 1 },
           { Res.base "z" with vector_score := some 0, lexical_score := some 0 }]
          3 0.5 0.5).Pairwise
          (fun a b => b.final_weighted_score.getD 0 ≤ a.final_weighted_score.getD 0)) :=
  c4_rank_sequence_amended
    [{ Res.base "x" with vector_score := some 0.9375, lexical_score := some 0.9375 }]
    [{ Res.base "y" with vector_score := some 1, lexical_score := some 1 },
     { Res.base "z" with vector_score := some 0, lexical_score := some 0 }] 3 0.5 0.5

/-- Claim C5, counterexample: with `top = 4`, a Confluence result whose
`rank` is -1 and whose `lexical_score` key is absent makes the try block
raise `ZeroDivisionError`; the exception handler calls the fallback with
`top*2 = 8` on inputs truncated to `top//2 + 1 = 3` per source, and the
combiner returns 6 results, exceeding the requested 4. -/
theorem c5_at_most_top_counterexample :
    (combine_and_rerank_dual_results
        [{ Res.base "bad" with rank := some (-1) },
         { Res.base "c2" with vector_score := some 1, lexical_score := some 1 },
         { Res.base "c3" with vector_score := some 1, lexical_score := some 1 }]
        [{ Res.base "a1" with vector_score := some 1, lexical_score := some 1 },
         { Res.base "a2" with vector_score := some 1, lexical_score := some 1 },
         { Res.base "a3" with vector_score := some 1, lexical_score := some 1 }]
        4 0.5 0.5).length = 6 ∧ 4 < 6 := by
  constructor
  · norm_num [combine_and_rerank_dual_results, combine_try_body, process_confluence_results,
      procConfluence, Except.bind, Res.base, equal_representation_fallback,
      rank_confluence_part, rank_azure_part, sortAscBy, insertAscBy, assign_final_ranks,
      List.take]
  · norm_num

/-- Claim C5, amended: the combiner returns at most `top` results on the
non-exception paths (the try block), while the internal-exception
recovery path can return up to two extra results; on every path the
output length is at most `top + 2`. -/
theorem c5_length_bound_amended (conf azure : List Res) (top : Nat) (wC wA : ℚ) :
    (∀ rs, combine_try_body conf azure top wC wA = .ok rs → rs.length ≤ top) ∧
      (combine_and_rerank_dual_results conf azure top wC wA).length ≤ top + 2 := by
  have htry : ∀ rs, combine_try_body conf azure top wC wA = .ok rs → rs.length ≤ top := by
    intro rs hrs
    rcases combine_try_body_shape conf azure top wC wA with h | h | ⟨L, hL⟩
    · rw [h] at hrs
      exact absurd hrs (by simp)
    · rw [h] at hrs
      have : rs = [] := by simpa using hrs.symm
      simp [this]
    · rw [hL] at hrs
      have : rs = (assign_final_ranks 1 L).take top := by simpa using hrs.symm
      rw [this]
      exact List.length_take_le _ _
  refine ⟨htry, ?_⟩
  unfold combine_and_rerank_dual_results
  rcases htb : combine_try_body conf azure top wC wA with e | rs
  · refine le_trans (equal_representation_fallback_length_le_sum _ _ _) ?_
    have h1 := List.length_take_le (top / 2 + 1) conf
    have h2 := List.length_take_le (top / 2 + 1) azure
    omega
  · exact le_trans (htry rs htb) (by omega)

/-- Claim C5, amended, witness: the counterexample input returns 6
results, within the `top + 2 = 6` bound, and its try block outcome is an
exception so the first conjunct is vacuous there. -/
theorem c5_length_bound_amended_witness :
    (∀ rs, combine_try_body
        [{ Res.base "bad" with rank := some (-1) },
         { Res.base "c2" with vector_score := some 1, lexical_score := some 1 },
         { Res.base "c3" with vector_score := some 1, lexical_score := some 1 }]
        [{ Res.base "a1" with vector_score := some 1, lexical_score := some 1 },
         { Res.base "a2" with vector_score := some 1, lexical_score := some 1 },
         { Res.base "a3" with vector_score := some 1, lexical_score := some 1 }]
        4 0.5 0.5 = .ok rs → rs.length ≤ 4) ∧
      (combine_and_rerank_dual_results
        [{ Res.base "bad" with rank := some (-1) },
         { Res.base "c2" with vector_score := some 1, lexical_score := some 1 },
         { Res.base "c3" with vector_score := some 1, lexical_score := some 1 }]
        [{ Res.base "a1" with vector_score := some 1, lexical_score := some 1 },
         { Res.base "a2" with vector_score := some 1, lexical_score := some 1 },
         { Res.base "a3" with vector_score := some 1, lexical_score := some 1 }]
        4 0.5 0.5).length ≤ 4 + 2 :=
  c5_length_bound_amended
    [{ Res.base "bad" with rank := some (-1) },
     { Res.base "c2" with vector_score := some 1, lexical_score := some 1 },
     { Res.base "c3" with vector_score := some 1, lexical_score := some 1 }]
    [{ Res.base "a1" with vector_score := some 1, lexical_score := some 1 },
     { Res.base "a2" with vector_score := some 1, lexical_score := some 1 },
     { Res.base "a3" with vector_score := some 1, lexical_score := some 1 }]
    4 0.5 0.5

/-- Claim C6: on the normal path (both processed sources contain a
positive vector score) the combiner min-max normalizes vector and
lexical scores over the combined pool of both sources, computes
`combined_score = 0.3 * normalized lexical + 0.7 * normalized vector`,
multiplies by the caller-supplied source weight and the 1.1 Confluence
boost (1 for Azure) to obtain the final weighted score, stable-sorts the
pool by that score descending, assigns sequential `final_rank` 1..N and
returns the first `top`. -/
theorem c6_normal_path_scoring (conf azure : List Res) (top : Nat) (wC wA : ℚ)
    (pc pa : List Res)
    (hpc : process_confluence_results conf = .ok pc)
    (hpa : process_azure_results azure = .ok pa)
    (hcv : pc.any (fun r => 0 < r.vector_score.getD 0) = true)
    (hav : pa.any (fun r => 0 < r.vector_score.getD 0) = true) :
    combine_and_rerank_dual_results conf azure top wC wA =
      (assign_final_ranks 1 (sortDescBy (fun r => r.final_weighted_score.getD 0)
        ((normalize_scores (pc ++ pa)).map (score_result wC wA)))).take top ∧
      (∀ r ∈ combine_and_rerank_dual_results conf azure top wC wA,
        r.normalized_vector_score =
          some ((r.vector_score.getD 0 - min_vector (pc ++ pa)) / vector_range (pc ++ pa)) ∧
        r.normalized_lexical_score =
          some ((r.lexical_score.getD 0 - min_lexical (pc ++ pa)) / lexical_range (pc ++ pa)) ∧
        r.combined_score = some (0.3 * r.normalized_lexical_score.getD 0 +
          0.7 * r.normalized_vector_score.getD 0) ∧
        r.final_weighted_score = some (r.combined_score.getD 0 *
          (if r.source_type = some Source.confluence then wC else wA) *
          (if r.source_type = some Source.confluence then 1.1 else 1))) ∧
      (combine_and_rerank_dual_results conf azure top wC wA).Pairwise
        (fun a b => b.final_weighted_score.getD 0 ≤ a.final_weighted_score.getD 0) ∧
      (combine_and_rerank_dual_results conf azure top wC wA).map (fun r => r.final_rank) =
        (List.range (combine_and_rerank_dual_results conf azure top wC wA).length).map
          (fun (j : Nat) => some (1 + (j : Int))) ∧
      (combine_and_rerank_dual_results conf azure top wC wA).length =
        min top (pc.length + pa.length) := by
  have htb := combine_try_body_normal top wC wA hpc hpa hcv
  have hcomb : combine_and_rerank_dual_results conf azure top wC wA =
      (assign_final_ranks 1 (sortDescBy (fun r => r.final_weighted_score.getD 0)
        ((normalize_scores (pc ++ pa)).map (score_result wC wA)))).take top := by
    unfold combine_and_rerank_dual_results
    rw [htb]
  refine ⟨hcomb, ?_, ?_, ?_, ?_⟩
  · intro r hr
    obtain ⟨q, hq, hcs, hfws, hnv, hnl, hst, hv, hl⟩ :=
      combine_normal_mem hpc hpa hcv hr
    obtain ⟨q0, hq0, hq0e⟩ := List.mem_map.mp hq
    obtain ⟨hn1, hn2, hn3, hn4, -⟩ := normalize_one_fields (pc ++ pa) q0
    obtain ⟨hs1, hs2, -, -, -, -, -⟩ := score_result_fields wC wA q
    refine ⟨?_, ?_, ?_, ?_⟩
    · rw [hnv, ← hq0e, hn1, hv, ← hq0e, hn3]
    · rw [hnl, ← hq0e, hn2, hl, ← hq0e, hn4]
    · rw [hcs, hs1, hnl, hnv]
    · rw [hfws, hs2, hcs, hs1, hst]
      simp only [Option.getD_some]
  · rw [hcomb]
    refine List.Pairwise.sublist (List.take_sublist _ _) ?_
    refine assign_final_ranks_pairwise ?_ 1 _ (sortDescBy_pairwise _ _)
    intro a b j k hab
    exact hab
  · rw [hcomb]
    exact ranks_of_assign_take _ top
  · rw [hcomb, List.length_take, assign_final_ranks_length,
      (sortDescBy_perm (fun r : Res => r.final_weighted_score.getD 0) _).length_eq,
      List.length_map, normalize_scores, List.length_map, List.length_append]

/-- Claim C6, witness: the three-result normal-path scenario with
default weights. -/
theorem c6_normal_path_scoring_witness :
    combine_and_rerank_dual_results
        [{ Res.base "x" with vector_score := some 0.9375, lexical_score := some 0.9375 }]
        [{ Res.base "y" with vector_score := some 1, lexical_score := some 1 }]
        2 0.5 0.5 =
      (assign_final_ranks 1 (sortDescBy (fun r => r.final_weighted_score.getD 0)
        ((normalize_scores
          ([{ Res.base "x" with vector_score := some 0.9375, lexical_score := some 0.9375, source_type := some Source.confluence, original_rank := some 0 }] ++
           [{ Res.base "y" with vector_score := some 1, lexical_score := some 1, source_type := some Source.azure, original_rank := some 0 }])).map
          (score_result 0.5 0.5)))).take 2 ∧
      (∀ r ∈ combine_and_rerank_dual_results
          [{ Res.base "x" with vector_score := some 0.9375, lexical_score := some 0.9375 }]
          [{ Res.base "y" with vector_score := some 1, lexical_score := some 1 }] 2 0.5 0.5,
        r.normalized_vector_score =
          some ((r.vector_score.getD 0 - min_vector
            ([{ Res.base "x" with vector_score := some 0.9375, lexical_score := some 0.9375, source_type := some Source.confluence, original_rank := some 0 }] ++
             [{ Res.base "y" with vector_score := some 1, lexical_score := some 1, source_type := some Source.azure, original_rank := some 0 }])) / vector_range
            ([{ Res.base "x" with vector_score := some 0.9375, lexical_score := some 0.9375, source_type := some Source.confluence, original_rank := some 0 }] ++
             [{ Res.base "y" with vector_score := some 1, lexical_score := some 1, source_type := some Source.azure, original_rank := some 0 }])) ∧
        r.normalized_lexical_score =
          some ((r.lexical_score.getD 0 - min_lexical
            ([{ Res.base "x" with vector_score := some 0.9375, lexical_score := some 0.9375, source_type := some Source.confluence, original_rank := some 0 }] ++
             [{ Res.base "y" with vector_score := some 1, lexical_score := some 1, source_type := some Source.azure, original_rank := some 0 }])) / lexical_range
            ([{ Res.base "x" with vector_score := some 0.9375, lexical_score := some 0.9375, source_type := some Source.confluence, original_rank := some 0 }] ++
             [{ Res.base "y" with vector_score := some 1, lexical_score := some 1, source_type := some Source.azure, original_rank := some 0 }])) ∧
        r.combined_score = some (0.3 * r.normalized_lexical_score.getD 0 +
          0.7 * r.normalized_vector_score.getD 0) ∧
        r.final_weighted_score = some (r.combined_score.getD 0 *
          (if r.source_type = some Source.confluence then (0.5 : ℚ) else 0.5) *
          (if r.source_type = some Source.confluence then 1.1 else 1))) ∧
      (combine_and_rerank_dual_results
          [{ Res.base "x" with vector_score := some 0.9375, lexical_score := some 0.9375 }]
          [{ Res.base "y" with vector_score := some 1, lexical_score := some 1 }]
          2 0.5 0.5).Pairwise
        (fun a b => b.final_weighted_score.getD 0 ≤ a.final_weighted_score.getD 0) ∧
      (combine_and_rerank_dual_results
          [{ Res.base "x" with vector_score := some 0.9375, lexical_score := some 0.9375 }]
          [{ Res.base "y" with vector_score := some 1, lexical_score := some 1 }]
          2 0.5 0.5).map (fun r => r.final_rank) =
        (List.range (combine_and_rerank_dual_results
          [{ Res.base "x" with vector_score := some 0.9375, lexical_score := some 0.9375 }]
          [{ Res.base "y" with vector_score := some 1, lexical_score := some 1 }]
          2 0.5 0.5).length).map (fun (j : Nat) => some (1 + (j : Int))) ∧
      (combine_and_rerank_dual_results
          [{ Res.base "x" with vector_score := some 0.9375, lexical_score := some 0.9375 }]
          [{ Res.base "y" with vector_score := some 1, lexical_score := some 1 }]
          2 0.5 0.5).length =
        min 2 ([{ Res.base "x" with vector_score := some 0.9375, lexical_score := some 0.9375, source_type := some Source.confluence, original_rank := some 0 }].length +
          [{ Res.base "y" with vector_score := some 1, lexical_score := some 1, source_type := some Source.azure, original_rank := some 0 }].length) :=
  c6_normal_path_scoring
    [{ Res.base "x" with vector_score := some 0.9375, lexical_score := some 0.9375 }]
    [{ Res.base "y" with vector_score := some 1, lexical_score := some 1 }] 2 0.5 0.5
    [{ Res.base "x" with vector_score := some 0.9375, lexical_score := some 0.9375, source_type := some Source.confluence, original_rank := some 0 }]
    [{ Res.base "y" with vector_score := some 1, lexical_score := some 1, source_type := some Source.azure, original_rank := some 0 }]
    (by norm_num [DualSearch.process_confluence_results, DualSearch.procConfluence,
      Except.bind, DualSearch.Res.base])
    (by norm_num [DualSearch.process_azure_results, DualSearch.procAzure,
      DualSearch.extract_azure_vector_score, DualSearch.extract_azure_lexical_score,
      Except.bind, DualSearch.Res.base])
    (by norm_num [DualSearch.Res.base, List.any])
    (by norm_num [DualSearch.Res.base, List.any])

namespace Faiss

/-- The retry loop with the configured two attempts, case by case on the
two oracle outcomes. -/
theorem embed_attempts_two (text_hash : String) (now : ℚ) (oracle : Nat → Option Vec)
    (st : FState) :
    embed_attempts text_hash now oracle st 0 EMBEDDING_RETRY_ATTEMPTS =
      match oracle 0 with
      | some emb => ⟨some emb, cache_store st text_hash emb now, 1, []⟩
      | none =>
        match oracle 1 with
        | some emb =>
          ⟨some emb, cache_store st text_hash emb now, 2, [EMBEDDING_RETRY_DELAY * 2 ^ 0]⟩
        | none => ⟨none, st, 2, [EMBEDDING_RETRY_DELAY * 2 ^ 0]⟩ := by
  rcases h0 : oracle 0 with _ | emb <;> rcases h1 : oracle 1 with _ | emb' <;>
    simp [embed_attempts, EMBEDDING_RETRY_ATTEMPTS, h0, h1]

theorem lookupA_cache_store_self (st : FState) (h : String) (emb : Vec) (now : ℚ) :
    lookupA (cache_store st h emb now).embedding_cache h = some emb ∧
      lookupA (cache_store st h emb now).cache_timestamps h = some now :=
  ⟨lookupA_insertA_self _ _ _, lookupA_insertA_self _ _ _⟩

end Faiss

/-- Claim C7: `get_embedding` keys the cache on the hash of the text
truncated to its first 8000 characters.  (i) On a cache hit within the
24-hour TTL it returns the cached vector with zero model calls and an
unchanged state.  (ii) After a successful call, an immediately following
call with the identical text (within the TTL, no eviction in between)
returns the same vector with zero model calls.  (iii) On a cache miss it
calls the model at most `EMBEDDING_RETRY_ATTEMPTS = 2` times, sleeping
`EMBEDDING_RETRY_DELAY * 2^attempt` between consecutive attempts, and on
success it stores the result under the text hash with the current
timestamp. -/
theorem c7_get_embedding_cache (md5 : String → String) (st : FState) (text : String)
    (now now' : ℚ) (oracle oracle' : Nat → Option Vec)
    (htext : ¬ text = "") :
    (∀ v, lookupA st.embedding_cache (md5 (text.take 8000)) = some v →
      now - (lookupA st.cache_timestamps (md5 (text.take 8000))).getD 0 <
        EMBEDDING_CACHE_EXPIRY_HOURS * 3600 →
      get_embedding md5 st text true now oracle = ⟨some v, st, 0, []⟩) ∧
    (∀ v, lookupA st.embedding_cache (md5 (text.take 8000)) = none →
      (get_embedding md5 st text true now oracle).result = some v →
      now' - now < EMBEDDING_CACHE_EXPIRY_HOURS * 3600 →
      get_embedding md5 ((get_embedding md5 st text true now oracle).state) text true
          now' oracle' =
        ⟨some v, (get_embedding md5 st text true now oracle).state, 0, []⟩) ∧
    (lookupA st.embedding_cache (md5 (text.take 8000)) = none →
      (get_embedding md5 st text true now oracle).calls ≤ EMBEDDING_RETRY_ATTEMPTS ∧
      (get_embedding md5 st text true now oracle).sleeps =
        (List.range ((get_embedding md5 st text true now oracle).calls - 1)).map
          (fun i => EMBEDDING_RETRY_DELAY * 2 ^ i) ∧
      (∀ v, (get_embedding md5 st text true now oracle).result = some v →
        (get_embedding md5 st text true now oracle).state =
          cache_store st (md5 (text.take 8000)) v now)) := by
  have hguard : ¬ (text = "" ∨ (true : Bool) = false) := by simp [htext]
  refine ⟨?_, ?_, ?_⟩
  · intro v hv hts
    simp only [get_embedding, if_neg hguard, hv]
    simp [hts]
  · intro v hmiss hres hts
    have hfirst : get_embedding md5 st text true now oracle =
        embed_attempts (md5 (text.take 8000)) now oracle st 0 EMBEDDING_RETRY_ATTEMPTS := by
      simp only [get_embedding, if_neg hguard, hmiss]
    have hstate : (get_embedding md5 st text true now oracle).state =
        cache_store st (md5 (text.take 8000)) v now := by
      rw [hfirst, embed_attempts_two] at hres ⊢
      rcases h0 : oracle 0 with _ | emb
      · rw [h0] at hres
        rcases h1 : oracle 1 with _ | emb'
        · rw [h1] at hres
          simp at hres
        · rw [h1] at hres
          simp at hres
          simp [hres]
      · rw [h0] at hres
        simp at hres
        simp [hres]
    rw [hstate, get_embedding, if_neg hguard]
    have hc := lookupA_insertA_self st.embedding_cache (md5 (text.take 8000)) v
    have ht := lookupA_insertA_self st.cache_timestamps (md5 (text.take 8000)) now
    simp only [cache_store] at hc ht ⊢
    rw [hc, ht]
    simp only [Option.getD_some]
    rw [if_pos hts]
  · intro hmiss
    have hfirst : get_embedding md5 st text true now oracle =
        embed_attempts (md5 (text.take 8000)) now oracle st 0 EMBEDDING_RETRY_ATTEMPTS := by
      simp only [get_embedding, if_neg hguard, hmiss]
    rw [hfirst, embed_attempts_two]
    rcases h0 : oracle 0 with _ | emb
    · rcases h1 : oracle 1 with _ | emb'
      · refine ⟨by simp [EMBEDDING_RETRY_ATTEMPTS], by simp [List.range_succ], ?_⟩
        intro v hv
        simp at hv
      · refine ⟨by simp [EMBEDDING_RETRY_ATTEMPTS], by simp [List.range_succ], ?_⟩
        intro v hv
        simp at hv
        simp [hv]
    · refine ⟨by simp [EMBEDDING_RETRY_ATTEMPTS], by simp, ?_⟩
      intro v hv
      simp at hv
      simp [hv]

/-- Claim C7, witness: a one-entry cache hit at time 0, a fresh miss that
succeeds on the first attempt, and the second identical call at time 1. -/
theorem c7_get_embedding_cache_witness :
    (∀ v, lookupA (FState.mk (some []) [] [("H", [9])] [("H", 0)] []).embedding_cache
        ((fun _ => "H") ("t".take 8000)) = some v →
      (1 : ℚ) - (lookupA (FState.mk (some []) [] [("H", [9])] [("H", 0)] []).cache_timestamps
        ((fun _ => "H") ("t".take 8000))).getD 0 < EMBEDDING_CACHE_EXPIRY_HOURS * 3600 →
      get_embedding (fun _ => "H") (FState.mk (some []) [] [("H", [9])] [("H", 0)] [])
        "t" true 1 (fun _ => some [4]) = ⟨some v, FState.mk (some []) [] [("H", [9])] [("H", 0)] [], 0, []⟩) ∧
    (∀ v, lookupA (FState.mk (some []) [] [("H", [9])] [("H", 0)] []).embedding_cache
        ((fun _ => "H") ("t".take 8000)) = none →
      (get_embedding (fun _ => "H") (FState.mk (some []) [] [("H", [9])] [("H", 0)] [])
        "t" true 1 (fun _ => some [4])).result = some v →
      (2 : ℚ) - 1 < EMBEDDING_CACHE_EXPIRY_HOURS * 3600 →
      get_embedding (fun _ => "H")
          ((get_embedding (fun _ => "H") (FState.mk (some []) [] [("H", [9])] [("H", 0)] [])
            "t" true 1 (fun _ => some [4])).state) "t" true 2 (fun _ => none) =
        ⟨some v, (get_embedding (fun _ => "H")
          (FState.mk (some []) [] [("H", [9])] [("H", 0)] [])
          "t" true 1 (fun _ => some [4])).state, 0, []⟩) ∧
    (lookupA (FState.mk (some []) [] [("H", [9])] [("H", 0)] []).embedding_cache
        ((fun _ => "H") ("t".take 8000)) = none →
      (get_embedding (fun _ => "H") (FState.mk (some []) [] [("H", [9])] [("H", 0)] [])
        "t" true 1 (fun _ => some [4])).calls ≤ EMBEDDING_RETRY_ATTEMPTS ∧
      (get_embedding (fun _ => "H") (FState.mk (some []) [] [("H", [9])] [("H", 0)] [])
        "t" true 1 (fun _ => some [4])).sleeps =
        (List.range ((get_embedding (fun _ => "H")
          (FState.mk (some []) [] [("H", [9])] [("H", 0)] [])
          "t" true 1 (fun _ => some [4])).calls - 1)).map
          (fun i => EMBEDDING_RETRY_DELAY * 2 ^ i) ∧
      (∀ v, (get_embedding (fun _ => "H") (FState.mk (some []) [] [("H", [9])] [("H", 0)] [])
          "t" true 1 (fun _ => some [4])).result = some v →
        (get_embedding (fun _ => "H") (FState.mk (some []) [] [("H", [9])] [("H", 0)] [])
          "t" true 1 (fun _ => some [4])).state =
          cache_store (FState.mk (some []) [] [("H", [9])] [("H", 0)] [])
            ((fun _ => "H") ("t".take 8000)) v 1)) :=
  c7_get_embedding_cache (fun _ => "H") (FState.mk (some []) [] [("H", [9])] [("H", 0)] [])
    "t" 1 2 (fun _ => some [4]) (fun _ => none) (by decide)

end AvaSpec
